import Mathlib

/-!
# Truth_and_Dare: session state machine of `server.js`

Shallow embedding of the socket handlers and the timer of `src/server.js`
over the record layout of `src/models/Room.js`.

Modelling conventions.

* A Mongoose `String` field that may be `undefined`/`null` is an
  `Option String`; JavaScript falsiness of such a field (`!p.truth`) is
  `falsy`.  A text argument sent by a client is a `String`, where `""`
  also stands for a missing argument (both are falsy in `x || default`).
* `Number` fields are `Int` (non-integral values are not modelled). The
  argument `turnTimer` is an `Int`, `0` also standing for a missing one.
* The database is a map from room code to document (`code` carries a unique
  index); `room.save()` of a document loaded by `findOne({ code })` writes
  it back under that code.
* `roomTimers` is abstracted to the set of codes whose interval is live.
* Every handler invocation is one atomic step; what it emits is returned
  as a list of `Effect`s in program order.  Payloads are snapshots of the
  document at the moment of the `emit` call.
* `Math.random()` is an argument of the step.
-/

namespace TruthDare

/-! ## Data model (`models/Room.js`) -/

inductive Role where
  | truth
  | dare
  deriving DecidableEq, Repr

inductive Phase where
  | lobby
  | input
  | action
  | reveal
  deriving DecidableEq, Repr

structure Player where
  playerId : String
  socketId : String
  nickname : String
  isHost : Bool
  truth : Option String
  dare : Option String
  targetId : Option String
  response : Option String
  role : Option Role
  isReady : Bool
  deriving DecidableEq, Repr

structure Room where
  code : String
  hostId : String
  players : List Player
  phase : Phase
  currentRole : Option Role
  timer : Int
  round : Int
  turnTimerUsed : Int
  deriving DecidableEq, Repr

/-- Payload of an emitted socket event, one constructor per event name. -/
inductive Msg where
  | error (text : String)
  | room_created (code : String) (room : Room)
  | player_joined (room : Room)
  | joined_success (room : Room)
  | game_started (room : Room)
  | room_updated (room : Room)
  | phase_change (room : Room) (phase : Phase)
  | timer_tick (value : Int)
  | player_left_notification (nickname : String) (isNewHost : Bool)
  deriving DecidableEq, Repr

/-- Observable output of a handler. -/
inductive Effect where
  /-- `socket.emit(...)`: to the calling connection only. -/
  | toCaller (socket : String) (m : Msg)
  /-- `io.to(code).emit(...)`: to every subscriber of the room. -/
  | toRoom (code : String) (m : Msg)
  /-- `socket.to(code).emit(...)`: to the room except the caller. -/
  | toOthers (socket : String) (code : String) (m : Msg)
  /-- `socket.join(code)`. -/
  | subscribe (socket : String) (code : String)
  /-- `socket.leave(code)`. -/
  | unsubscribe (socket : String) (code : String)
  deriving DecidableEq, Repr

/-- Server state: the `rooms` collection and the live entries of `roomTimers`. -/
structure World where
  store : String → Option Room
  timers : String → Bool

/-- Server state at start-up: no document, no interval. -/
def World.empty : World := ⟨fun _ => none, fun _ => false⟩

/-! ## Helpers for JavaScript idioms -/

/-- `!s` for a string-valued field: `undefined`, `null` and `''` are falsy. -/
def falsy : Option String → Bool
  | none => true
  | some s => s == ""

/-- `content || dflt` for a string argument. -/
def orElse (content dflt : String) : String :=
  if content == "" then dflt else content

/-- `const x = arr.find(pred); x.field = ...`: in-place change of the first
element that satisfies `pred`. -/
def modifyFirst (pred : Player → Bool) (f : Player → Player) : List Player → List Player
  | [] => []
  | p :: ps => if pred p then f p :: ps else p :: modifyFirst pred f ps

/-- `Room.findOne({ code })`. -/
def World.findOne (w : World) (code : String) : Option Room := w.store code

/-- `room.save()` for the document loaded under `code`. -/
def World.save (w : World) (code : String) (room : Room) : World :=
  { w with store := Function.update w.store code (some room) }

/-- `Room.deleteOne({ code })`. -/
def World.deleteOne (w : World) (code : String) : World :=
  { w with store := Function.update w.store code none }

/-- `startRoomTimer(code)` / `resetRoomTimer(code)`: replaces any interval
of the code by a fresh one. -/
def World.startRoomTimer (w : World) (code : String) : World :=
  { w with timers := Function.update w.timers code true }

/-- `stopRoomTimer(code)` and the inline `clearInterval(roomTimers[code])`. -/
def World.stopRoomTimer (w : World) (code : String) : World :=
  { w with timers := Function.update w.timers code false }

/-! ## Handlers (`server.js`) -/

/-- The `forEach` of `start_game` and `next_round` that resets a player for a
round with the shared role. -/
def resetForRound (sharedRole : Role) (p : Player) : Player :=
  { p with role := some sharedRole, truth := some "", dare := some "",
           response := some "", isReady := false }

/-- One iteration of the target loop of `start_game`:
`players[i].targetId = players[(i + 1) % players.length].playerId`. -/
def setTarget (ps : List Player) (i : Nat) : List Player :=
  match ps[i]?, ps[(i + 1) % ps.length]? with
  | some p, some q => ps.set i { p with targetId := some q.playerId }
  | _, _ => ps

/-- The target loop of `start_game`: `for (let i = 0; i < players.length; i++)`. -/
def assignTargets (ps : List Player) : List Player :=
  (List.range ps.length).foldl setTarget ps

/-- `players.forEach(p => p.isReady = false)`. -/
def clearReady (ps : List Player) : List Player :=
  ps.map fun p => { p with isReady := false }

/-- The `forEach` of the `input` branch of `handleTimerExpiry`. -/
def backfillPrompt (p : Player) : Player :=
  let p1 := if p.role = some Role.truth ∧ falsy p.truth = true
    then { p with truth := some "(No question provided)" } else p
  if p1.role = some Role.dare ∧ falsy p1.dare = true
    then { p1 with dare := some "(No dare provided)" } else p1

/-- The `forEach` of the `action` branch of `handleTimerExpiry`. -/
def backfillResponse (p : Player) : Player :=
  if falsy p.response = true then { p with response := some "(No response provided)" } else p

/-- `handleTimerExpiry(code, room)`. -/
def handleTimerExpiry (w : World) (code : String) (room : Room) : World × List Effect :=
  match room.phase with
  | Phase.input =>
    let room1 := { room with players := room.players.map backfillPrompt }
    if room1.currentRole = some Role.truth then
      let room2 := { room1 with phase := Phase.action, timer := room1.turnTimerUsed,
                                players := clearReady room1.players }
      ((w.save code room2).startRoomTimer code,
        [Effect.toRoom code (Msg.phase_change room2 Phase.action)])
    else
      let room2 := { room1 with phase := Phase.reveal, timer := 0,
                                players := clearReady room1.players }
      ((w.save code room2).stopRoomTimer code,
        [Effect.toRoom code (Msg.phase_change room2 Phase.reveal)])
  | Phase.action =>
    let room1 := { room with players := room.players.map backfillResponse,
                             phase := Phase.reveal, timer := 0 }
    ((w.save code room1).stopRoomTimer code,
      [Effect.toRoom code (Msg.phase_change room1 Phase.reveal)])
  | _ => (w, [])

/-- One firing of the interval callback installed by `startRoomTimer(code)`.
It fires only while the interval of the code is live. -/
def timerTick (w : World) (code : String) : World × List Effect :=
  if w.timers code = true then
    match w.findOne code with
    | none => (w.stopRoomTimer code, [])
    | some room =>
      if room.timer > 0 then
        let room1 := { room with timer := room.timer - 1 }
        let w1 := if room1.timer % 5 = 0 then w.save code room1 else w
        (w1, [Effect.toRoom code (Msg.timer_tick room1.timer)])
      else
        handleTimerExpiry (w.stopRoomTimer code) code room
  else (w, [])

/-- Handler of `create_room`; `code` is the random code drawn by the handler
and `dbReady` is `mongoose.connection.readyState === 1`.  `Room.create`
fills the schema defaults and fails on a code that is already stored
(unique index). -/
def create_room (w : World) (socket code nickname playerId : String) (dbReady : Bool) :
    World × List Effect :=
  if dbReady = false then (w, [Effect.toCaller socket (Msg.error "Database not connected.")])
  else
    match w.findOne code with
    | some _ => (w, [Effect.toCaller socket (Msg.error "Failed to create room")])
    | none =>
      let room : Room :=
        { code := code, hostId := playerId,
          players := [{ playerId := playerId, socketId := socket, nickname := nickname,
                        isHost := true, truth := none, dare := none, targetId := none,
                        response := none, role := none, isReady := false }],
          phase := Phase.lobby, currentRole := none, timer := 60, round := 1,
          turnTimerUsed := 60 }
      (w.save code room,
        [Effect.subscribe socket code, Effect.toCaller socket (Msg.room_created code room)])

/-- Handler of `join_room`. -/
def join_room (w : World) (socket code nickname playerId : String) : World × List Effect :=
  match w.findOne code with
  | none => (w, [Effect.toCaller socket (Msg.error "Room not found")])
  | some room =>
    let players :=
      match room.players.find? (fun p => p.playerId == playerId) with
      | some _ =>
        modifyFirst (fun p => p.playerId == playerId) (fun p => { p with socketId := socket })
          room.players
      | none =>
        room.players ++ [{ playerId := playerId, socketId := socket, nickname := nickname,
                           isHost := false, truth := none, dare := none, targetId := none,
                           response := none, role := none, isReady := false }]
    let room1 := { room with players := players }
    (w.save code room1,
      [Effect.subscribe socket code, Effect.toRoom code (Msg.player_joined room1),
       Effect.toCaller socket (Msg.joined_success room1)])

/-- Handler of `start_game`; `coin` is `Math.random() < 0.5`. -/
def start_game (w : World) (socket code : String) (turnTimer : Int) (playerId : String)
    (coin : Bool) : World × List Effect :=
  match w.findOne code with
  | none => (w, [])
  | some room =>
    if room.hostId ≠ playerId then (w, [])
    else
      let room1 := { room with turnTimerUsed := if turnTimer = 0 then 60 else turnTimer,
                               round := 1 }
      if room1.players.length < 2 then
        (w, [Effect.toCaller socket (Msg.error "Need 2 players to start")])
      else
        let sharedRole := if coin then Role.truth else Role.dare
        let room2 := { room1 with currentRole := some sharedRole,
                                  players := room1.players.map (resetForRound sharedRole) }
        let room3 := { room2 with players := assignTargets room2.players }
        let room4 := { room3 with phase := Phase.input, timer := room3.turnTimerUsed }
        ((w.save code room4).startRoomTimer code,
          [Effect.toRoom code (Msg.game_started room4)])

/-- The write of `submit_input` into the target found by `find`. -/
def writePrompt (content : String) (t : Player) : Player :=
  let t1 := if t.role = some Role.truth
    then { t with truth := some (orElse content "(Empty Question)") } else t
  if t1.role = some Role.dare
    then { t1 with dare := some (orElse content "(Empty Dare)") } else t1

/-- Handler of `submit_input`. -/
def submit_input (w : World) (code content playerId : String) : World × List Effect :=
  match w.findOne code with
  | none => (w, [])
  | some room =>
    match room.players.find? (fun p => p.playerId == playerId) with
    | none => (w, [])
    | some player =>
      let ps1 := modifyFirst (fun p => p.playerId == playerId)
        (fun p => { p with isReady := true }) room.players
      let ps2 := modifyFirst (fun p => some p.playerId == player.targetId)
        (writePrompt content) ps1
      let room1 := { room with players := ps2 }
      let allSubmitted := room1.players.all fun p => p.isReady
      let w1 := w.save code room1
      let e1 := Effect.toRoom code (Msg.room_updated room1)
      if allSubmitted = true then
        if room1.currentRole = some Role.truth then
          let room2 := { room1 with phase := Phase.action, timer := room1.turnTimerUsed,
                                    players := clearReady room1.players }
          ((w1.save code room2).startRoomTimer code,
            [e1, Effect.toRoom code (Msg.phase_change room2 Phase.action)])
        else
          let room2 := { room1 with phase := Phase.reveal, timer := 0,
                                    players := clearReady room1.players }
          ((w1.save code room2).stopRoomTimer code,
            [e1, Effect.toRoom code (Msg.phase_change room2 Phase.reveal)])
      else (w1, [e1])

/-- Handler of `submit_response`. -/
def submit_response (w : World) (code response playerId : String) : World × List Effect :=
  match w.findOne code with
  | none => (w, [])
  | some room =>
    match room.players.find? (fun p => p.playerId == playerId) with
    | none => (w, [])
    | some _ =>
      let ps1 := modifyFirst (fun p => p.playerId == playerId)
        (fun p => { p with response := some (orElse response "(Empty Response)"),
                           isReady := true }) room.players
      let room1 := { room with players := ps1 }
      let w1 := w.save code room1
      let e1 := Effect.toRoom code (Msg.room_updated room1)
      if (room1.players.all fun p => p.isReady) = true then
        let room2 := { room1 with phase := Phase.reveal, timer := 0,
                                  players := clearReady room1.players }
        ((w1.save code room2).stopRoomTimer code,
          [e1, Effect.toRoom code (Msg.phase_change room2 Phase.reveal)])
      else (w1, [e1])

/-- Handler of `next_round`. -/
def next_round (w : World) (code playerId : String) : World × List Effect :=
  match w.findOne code with
  | none => (w, [])
  | some room =>
    if room.hostId ≠ playerId then (w, [])
    else
      let sharedRole := if room.currentRole = some Role.truth then Role.dare else Role.truth
      let room1 := { room with round := room.round + 1, phase := Phase.input,
                               timer := room.turnTimerUsed, currentRole := some sharedRole,
                               players := room.players.map (resetForRound sharedRole) }
      ((w.save code room1).startRoomTimer code,
        [Effect.toRoom code (Msg.game_started room1)])

/-- Handler of `request_room_data`. -/
def request_room_data (w : World) (socket code playerId : String) : World × List Effect :=
  match w.findOne code with
  | none => (w, [Effect.toCaller socket (Msg.error "Room not found")])
  | some room =>
    match room.players.find? (fun p => p.playerId == playerId) with
    | some _ =>
      let ps1 := modifyFirst (fun p => p.playerId == playerId)
        (fun p => { p with socketId := socket }) room.players
      let room1 := { room with players := ps1 }
      (w.save code room1,
        [Effect.subscribe socket code, Effect.toCaller socket (Msg.room_updated room1)])
    | none =>
      (w, [Effect.subscribe socket code, Effect.toCaller socket (Msg.room_updated room)])

/-- The `forEach` of `leave_room` that clears a remaining player. -/
def clearPlayer (p : Player) : Player :=
  { p with truth := some "", dare := some "", response := some "", isReady := false,
           role := none, targetId := none }

/-- `players[0].isHost = true` of `leave_room`. -/
def promoteFirst : List Player → List Player
  | [] => []
  | p :: ps => { p with isHost := true } :: ps

/-- Handler of `leave_room`. -/
def leave_room (w : World) (socket code playerId : String) : World × List Effect :=
  match w.findOne code with
  | none => (w, [])
  | some room =>
    match room.players.find? (fun p => p.playerId == playerId) with
    | none => (w, [])
    | some leaver =>
      let wasHost := leaver.isHost
      let rest := room.players.eraseIdx (room.players.findIdx fun p => p.playerId == playerId)
      match rest with
      | [] => ((w.deleteOne code).stopRoomTimer code, [Effect.unsubscribe socket code])
      | first :: _ =>
        let ps1 := if wasHost = true then promoteFirst rest else rest
        let hostId := if wasHost = true then first.playerId else room.hostId
        let room1 := { room with hostId := hostId, phase := Phase.lobby, round := 0,
                                 timer := 0, currentRole := none,
                                 players := ps1.map clearPlayer }
        ((w.stopRoomTimer code).save code room1,
          [Effect.toOthers socket code (Msg.player_left_notification leaver.nickname wasHost),
           Effect.toRoom code (Msg.room_updated room1),
           Effect.unsubscribe socket code])

/-! ## The server as a transition system -/

/-- Everything that can happen to the server: a client event or the firing of
an interval. -/
inductive Action where
  | create_room (socket code nickname playerId : String) (dbReady : Bool)
  | join_room (socket code nickname playerId : String)
  | start_game (socket code : String) (turnTimer : Int) (playerId : String) (coin : Bool)
  | submit_input (code content playerId : String)
  | submit_response (code response playerId : String)
  | next_round (code playerId : String)
  | request_room_data (socket code playerId : String)
  | leave_room (socket code playerId : String)
  | timerTick (code : String)

/-- Effect of one action on the server. -/
def step (w : World) : Action → World × List Effect
  | Action.create_room s c n p d => create_room w s c n p d
  | Action.join_room s c n p => join_room w s c n p
  | Action.start_game s c t p coin => start_game w s c t p coin
  | Action.submit_input c t p => submit_input w c t p
  | Action.submit_response c t p => submit_response w c t p
  | Action.next_round c p => next_round w c p
  | Action.request_room_data s c p => request_room_data w s c p
  | Action.leave_room s c p => leave_room w s c p
  | Action.timerTick c => timerTick w c

/-- Server state after a sequence of actions. -/
def run (w : World) : List Action → World
  | [] => w
  | a :: as => run (step w a).1 as

/-- States the server can be in: those reached from start-up by a finite
sequence of actions. -/
def Reachable (w : World) : Prop := ∃ as : List Action, run World.empty as = w

/-! ## Definitions used in the statements -/

/-- Identity of a participant in the room: who it is and whether it is host. -/
def ident (p : Player) : String × Bool := (p.playerId, p.isHost)

/-- The `playerId`s of the participants flagged `isHost`, in order. -/
def hostIds (ps : List Player) : List String :=
  (ps.filter fun p => p.isHost).map fun p => p.playerId

/-- Host consistency of a room: the participants flagged host are exactly one,
with the `playerId` stored in `hostId`, and no `playerId` occurs twice. -/
structure RoomOK (r : Room) : Prop where
  hosts : hostIds r.players = [r.hostId]
  nodup : (r.players.map fun p => p.playerId).Nodup

/-- Every stored room is host-consistent. -/
def StoreOK (w : World) : Prop := ∀ code room, w.store code = some room → RoomOK room

/-- Scenario D of the specification up to the departure of the host: three
participants, a started round, then the host leaves. -/
def scenarioD : List Action :=
  [Action.create_room "s1" "AB12" "Ann" "p1" true,
   Action.join_room "s2" "AB12" "Bob" "p2",
   Action.join_room "s3" "AB12" "Cy" "p3",
   Action.start_game "s1" "AB12" 30 "p1" true,
   Action.leave_room "s1" "AB12" "p1"]

/-- The room stored after `scenarioD`. -/
def roomD : Room :=
  { code := "AB12", hostId := "p2",
    players := [
      { playerId := "p2", socketId := "s2", nickname := "Bob", isHost := true,
        truth := some "", dare := some "", targetId := none, response := some "",
        role := none, isReady := false },
      { playerId := "p3", socketId := "s3", nickname := "Cy", isHost := false,
        truth := some "", dare := some "", targetId := none, response := some "",
        role := none, isReady := false }],
    phase := Phase.lobby, currentRole := none, timer := 0, round := 0, turnTimerUsed := 30 }

/-- The room written by a `start_game` that passes both guards, as the handler
builds it from the loaded `room`. -/
def startedRoom (room : Room) (turnTimer : Int) (coin : Bool) : Room :=
  let room1 := { room with turnTimerUsed := if turnTimer = 0 then 60 else turnTimer,
                           round := 1 }
  let sharedRole := if coin then Role.truth else Role.dare
  let room2 := { room1 with currentRole := some sharedRole,
                            players := room1.players.map (resetForRound sharedRole) }
  let room3 := { room2 with players := assignTargets room2.players }
  { room3 with phase := Phase.input, timer := room3.turnTimerUsed }

/-- Scenario A of the specification before the start: a host and a second
participant in a fresh session. -/
def scenarioA : List Action :=
  [Action.create_room "s1" "AB12" "Ann" "p1" true,
   Action.join_room "s2" "AB12" "Bob" "p2"]

/-- The room stored after `scenarioA`. -/
def lobbyA : Room :=
  { code := "AB12", hostId := "p1",
    players := [
      { playerId := "p1", socketId := "s1", nickname := "Ann", isHost := true,
        truth := none, dare := none, targetId := none, response := none,
        role := none, isReady := false },
      { playerId := "p2", socketId := "s2", nickname := "Bob", isHost := false,
        truth := none, dare := none, targetId := none, response := none,
        role := none, isReady := false }],
    phase := Phase.lobby, currentRole := none, timer := 60, round := 1, turnTimerUsed := 60 }

/-- The participant a participant `p` writes for, as the handlers look it up:
`players.find(q => q.playerId === p.targetId)`. -/
def targetOf (ps : List Player) (p : Player) : Option Player :=
  ps.find? fun q => some q.playerId == p.targetId

/-- The target map of a room is a single cycle through all its participants:
some permutation of the positions that is one cycle moving every position
sends each participant to the participant its `targetId` names; and no
participant names itself. -/
def TargetCycle (ps : List Player) : Prop :=
  (∃ σ : Equiv.Perm (Fin ps.length), σ.IsCycle ∧ σ.support = Finset.univ ∧
    ∀ i : Fin ps.length, targetOf ps (ps.get i) = some (ps.get (σ i))) ∧
  ∀ p ∈ ps, p.targetId ≠ some p.playerId

/-- The `targetId`s are the `playerId`s rotated by one position: participant
`i` names participant `(i + 1) mod n`. -/
def Ring (ps : List Player) : Prop :=
  (ps.map fun p => p.targetId) = ((ps.map fun p => p.playerId).rotate 1).map some

/-- The part of a participant the target map depends on. -/
def link (p : Player) : String × Option String := (p.playerId, p.targetId)

/-- Target consistency of a room: once a round has been started
(`currentRole` is set) the targets are the rotation of the participants, and
the timed phases occur only with `currentRole` set. -/
structure RingOK (r : Room) : Prop where
  ring : r.currentRole ≠ none → Ring r.players
  role : r.phase = Phase.input ∨ r.phase = Phase.action → r.currentRole ≠ none

/-- Every stored room is target-consistent. -/
def RingStore (w : World) : Prop := ∀ code room, w.store code = some room → RingOK room

/-- Actions of the amended target-cycle invariant: `join_room` may add a new
participant only to a room whose `currentRole` is `null` (no round started
since the room was created or last reset by a departure), a reconnecting
`join_room` is always allowed, and `next_round` is issued only on a room whose
`currentRole` is set. Every other action is allowed. -/
def admissible (w : World) : Action → Bool
  | Action.join_room _ c _ p =>
    match w.findOne c with
    | none => true
    | some room => room.currentRole.isNone || room.players.any fun q => q.playerId == p
  | Action.next_round c _ =>
    match w.findOne c with
    | none => true
    | some room => room.currentRole.isSome
  | _ => true

/-- Every action of the sequence is admissible in the state it is applied to. -/
def admissibleRun (w : World) : List Action → Bool
  | [] => true
  | a :: as => admissible w a && admissibleRun (step w a).1 as

/-- Scenario A of the specification: a host and a second participant, then the
host starts a round of thirty seconds (the coin gives truth). -/
def scenarioStarted : List Action :=
  [Action.create_room "s1" "AB12" "Ann" "p1" true,
   Action.join_room "s2" "AB12" "Bob" "p2",
   Action.start_game "s1" "AB12" 30 "p1" true]

/-- The room stored after `scenarioStarted`. -/
def roomStarted : Room :=
  { code := "AB12", hostId := "p1",
    players := [
      { playerId := "p1", socketId := "s1", nickname := "Ann", isHost := true,
        truth := some "", dare := some "", targetId := some "p2", response := some "",
        role := some Role.truth, isReady := false },
      { playerId := "p2", socketId := "s2", nickname := "Bob", isHost := false,
        truth := some "", dare := some "", targetId := some "p1", response := some "",
        role := some Role.truth, isReady := false }],
    phase := Phase.input, currentRole := some Role.truth, timer := 30, round := 1,
    turnTimerUsed := 30 }

/-- A third participant joins the started round of `scenarioStarted`. -/
def scenarioLateJoin : List Action :=
  scenarioStarted ++ [Action.join_room "s3" "AB12" "Cy" "p3"]

/-- The room stored after `scenarioLateJoin`. -/
def roomLateJoin : Room :=
  { roomStarted with players := roomStarted.players ++
      [{ playerId := "p3", socketId := "s3", nickname := "Cy", isHost := false,
         truth := none, dare := none, targetId := none, response := none,
         role := none, isReady := false }] }

/-- The room that `submit_input` saves first and broadcasts as `room_updated`:
the submitter is flagged ready and the text is written into the record of the
participant its `targetId` names. -/
def inputWritten (room : Room) (content playerId : String) (player : Player) : Room :=
  let ps1 := modifyFirst (fun p => p.playerId == playerId)
    (fun p => { p with isReady := true }) room.players
  let ps2 := modifyFirst (fun p => some p.playerId == player.targetId)
    (writePrompt content) ps1
  { room with players := ps2 }

/-- The host of `roomStarted`. -/
def playerAnn : Player :=
  { playerId := "p1", socketId := "s1", nickname := "Ann", isHost := true,
    truth := some "", dare := some "", targetId := some "p2", response := some "",
    role := some Role.truth, isReady := false }

/-- The second participant of `roomStarted`. -/
def playerBob : Player :=
  { playerId := "p2", socketId := "s2", nickname := "Bob", isHost := false,
    truth := some "", dare := some "", targetId := some "p1", response := some "",
    role := some Role.truth, isReady := false }

/-- The prompt slot of a participant that a role selects. -/
def slot (r : Role) (p : Player) : Option String :=
  match r with
  | Role.truth => p.truth
  | Role.dare => p.dare

/-- What `submit_input` does to one record when `playerId`s are distinct: the
record of the submitter is flagged ready, the record named by `target`
receives the text. -/
def inputStep (content playerId : String) (target : Option String) (x : Player) : Player :=
  let x1 := if x.playerId = playerId then { x with isReady := true } else x
  if some x1.playerId = target then writePrompt content x1 else x1

/-- State of the participants while prompts are being collected, relative to
the participants `ps0` of the started round and the `playerId`s `done` that
have submitted. -/
structure Collecting (r : Role) (ps0 : List Player) (done : List String)
    (ps : List Player) : Prop where
  links : ps.map link = ps0.map link
  roles : ∀ x ∈ ps, x.role = some r
  ready : ∀ x ∈ ps, (x.isReady = true ↔ x.playerId ∈ done)
  written : ∀ x ∈ ps, ∀ y ∈ ps, x.targetId = some y.playerId → x.playerId ∈ done →
    falsy (slot r y) = false

/-- Everything emitted while a sequence of actions is applied, in order. -/
def trace (w : World) : List Action → List Effect
  | [] => []
  | a :: as => (step w a).2 ++ trace (step w a).1 as

/-- The effect is a `phase_change` broadcast. -/
def isPhaseChange : Effect → Bool
  | Effect.toRoom _ (Msg.phase_change _ _) => true
  | _ => false

/-- The `submit_input` events of a list of (playerId, content) pairs, in order. -/
def submissions (code : String) (subs : List (String × String)) : List Action :=
  subs.map fun s => Action.submit_input code s.2 s.1

/-- A stored room in which prompts are being collected. -/
structure CollectingRoom (r : Role) (ps0 : List Player) (done : List String)
    (room : Room) : Prop where
  players : Collecting r ps0 done room.players
  phase : room.phase = Phase.input
  currentRole : room.currentRole = some r

/-- The placeholder that `handleTimerExpiry` writes into the empty prompt slot
of a role. -/
def expiryPlaceholder : Role → String
  | Role.truth => "(No question provided)"
  | Role.dare => "(No dare provided)"

/-- The session of `roomStarted` after the host alone has submitted a question
(for the second participant). -/
def roomHalfSubmitted : Room :=
  { roomStarted with players := [
      { playerAnn with isReady := true },
      { playerBob with truth := some "Favorite color?" }] }

/-- Who a participant is for the other participants: identity, connection and
display name. -/
def persona (p : Player) : String × String × String := (p.playerId, p.socketId, p.nickname)

/-- A room in `action` with three participants, the first of them host. -/
def roomThree : Room :=
  { code := "AB12", hostId := "p1",
    players := [
      { playerId := "p1", socketId := "s1", nickname := "Ann", isHost := true,
        truth := some "q3", dare := some "", targetId := some "p2", response := some "a1",
        role := some Role.truth, isReady := true },
      { playerId := "p2", socketId := "s2", nickname := "Bob", isHost := false,
        truth := some "q1", dare := some "", targetId := some "p3", response := some "",
        role := some Role.truth, isReady := false },
      { playerId := "p3", socketId := "s3", nickname := "Cy", isHost := false,
        truth := some "q2", dare := some "", targetId := some "p1", response := some "",
        role := some Role.truth, isReady := false }],
    phase := Phase.action, currentRole := some Role.truth, timer := 17, round := 1,
    turnTimerUsed := 30 }

/-- A server that stores `roomThree` with its timer live. -/
def worldThree : World :=
  (World.empty.save "AB12" roomThree).startRoomTimer "AB12"

/-- The effect is sent to the subscribers of a room (`io.to(code).emit` or
`socket.to(code).emit`). -/
def isBroadcast : Effect → Bool
  | Effect.toRoom _ _ => true
  | Effect.toOthers _ _ _ => true
  | _ => false

/-- A fresh session with its creator as only participant. -/
def scenarioAlone : List Action :=
  [Action.create_room "s1" "AB12" "Ann" "p1" true]

/-- The room stored after `scenarioAlone`. -/
def roomAlone : Room :=
  { code := "AB12", hostId := "p1",
    players := [{ playerId := "p1", socketId := "s1", nickname := "Ann", isHost := true,
                  truth := none, dare := none, targetId := none, response := none,
                  role := none, isReady := false }],
    phase := Phase.lobby, currentRole := none, timer := 60, round := 1, turnTimerUsed := 60 }

/-- The record `join_room` pushes for a participant that is not in the room;
the fields it does not name are left undefined (`isReady` by schema default
false, `role` by schema default null). -/
def newcomer (socket nickname playerId : String) : Player :=
  { playerId := playerId, socketId := socket, nickname := nickname, isHost := false,
    truth := none, dare := none, targetId := none, response := none, role := none,
    isReady := false }

/-- The session-level fields of a room. -/
def sessionFields (r : Room) : String × String × Phase × Option Role × Int × Int × Int :=
  (r.code, r.hostId, r.phase, r.currentRole, r.timer, r.round, r.turnTimerUsed)

/-- The complement of a role. -/
def Role.flip : Role → Role
  | Role.truth => Role.dare
  | Role.dare => Role.truth

/-- A session in `reveal` after a round of dares, two participants. -/
def roomRevealed : Room :=
  { code := "AB12", hostId := "p1",
    players := [
      { playerId := "p1", socketId := "s1", nickname := "Ann", isHost := true,
        truth := some "", dare := some "d2", targetId := some "p2", response := some "",
        role := some Role.dare, isReady := false },
      { playerId := "p2", socketId := "s2", nickname := "Bob", isHost := false,
        truth := some "", dare := some "d1", targetId := some "p1", response := some "",
        role := some Role.dare, isReady := false }],
    phase := Phase.reveal, currentRole := some Role.dare, timer := 0, round := 1,
    turnTimerUsed := 30 }

/-- A round of dares is played to `reveal` by two participants, a third
participant joins, and the host issues `next_round`. -/
def scenarioNextRound : List Action :=
  [Action.create_room "s1" "AB12" "Ann" "p1" true,
   Action.join_room "s2" "AB12" "Bob" "p2",
   Action.start_game "s1" "AB12" 30 "p1" false,
   Action.submit_input "AB12" "d2" "p1",
   Action.submit_input "AB12" "d1" "p2",
   Action.join_room "s3" "AB12" "Cy" "p3",
   Action.next_round "AB12" "p1"]

/-- The room stored after `scenarioNextRound` without its last action. -/
def roomBeforeNextRound : Room :=
  { code := "AB12", hostId := "p1",
    players := [
      { playerId := "p1", socketId := "s1", nickname := "Ann", isHost := true,
        truth := some "", dare := some "d1", targetId := some "p2", response := some "",
        role := some Role.dare, isReady := false },
      { playerId := "p2", socketId := "s2", nickname := "Bob", isHost := false,
        truth := some "", dare := some "d2", targetId := some "p1", response := some "",
        role := some Role.dare, isReady := false },
      newcomer "s3" "Cy" "p3"],
    phase := Phase.reveal, currentRole := some Role.dare, timer := 0, round := 1,
    turnTimerUsed := 30 }

/-- The room that `submit_response` saves first and broadcasts as
`room_updated`. -/
def responseWritten (room : Room) (response playerId : String) : Room :=
  let ps1 := modifyFirst (fun p => p.playerId == playerId)
    (fun p => { p with response := some (orElse response "(Empty Response)"),
                       isReady := true }) room.players
  { room with players := ps1 }

/-- The second participant of `roomThree`. -/
def responderBob : Player :=
  { playerId := "p2", socketId := "s2", nickname := "Bob", isHost := false,
    truth := some "q1", dare := some "", targetId := some "p3", response := some "",
    role := some Role.truth, isReady := false }

/-- Scenario A with the round started and the question of the host submitted. -/
def scenarioOneSubmitted : List Action :=
  scenarioStarted ++ [Action.submit_input "AB12" "Favorite color?" "p1"]

/-- Timer consistency of a room: in `reveal` the stored `timer` is 0, in
`lobby` it is 0 or the schema default 60. -/
structure TimerOK (r : Room) : Prop where
  reveal : r.phase = Phase.reveal → r.timer = 0
  lobby : r.phase = Phase.lobby → r.timer = 0 ∨ r.timer = 60

/-- Every stored room is timer-consistent. -/
def TimerStore (w : World) : Prop := ∀ code room, w.store code = some room → TimerOK room

/-! # Theorems -/

/-! ## Lists of players -/

theorem map_modifyFirst_of_inv {β : Type} (g : Player → β) (pred : Player → Bool)
    (f : Player → Player) (h : ∀ p, g (f p) = g p) (ps : List Player) :
    (modifyFirst pred f ps).map g = ps.map g := by
  induction ps with
  | nil => rfl
  | cons p ps ih =>
    unfold modifyFirst
    split
    · simp [h]
    · simp [ih]

theorem map_map_of_inv {β : Type} (g : Player → β) (f : Player → Player)
    (h : ∀ p, g (f p) = g p) (ps : List Player) : (ps.map f).map g = ps.map g := by
  simp [List.map_map, Function.comp_def, h]

theorem map_setTarget_of_inv {β : Type} (g : Player → β)
    (h : ∀ p t, g { p with targetId := t } = g p) (ps : List Player) (i : Nat) :
    (setTarget ps i).map g = ps.map g := by
  unfold setTarget
  split
  · rename_i p q hp hq
    apply List.ext_getElem?
    intro j
    simp only [List.getElem?_map, List.getElem?_set]
    by_cases hij : i = j
    · subst hij
      have hlt : i < ps.length := by
        rcases Nat.lt_or_ge i ps.length with h1 | h1
        · exact h1
        · rw [List.getElem?_eq_none h1] at hp; cases hp
      simp [hp, h, hlt]
    · simp [hij]
  · rfl

theorem length_setTarget (ps : List Player) (i : Nat) : (setTarget ps i).length = ps.length := by
  unfold setTarget
  split <;> simp

theorem map_foldl_setTarget_of_inv {β : Type} (g : Player → β)
    (h : ∀ p t, g { p with targetId := t } = g p) (is : List Nat) (ps : List Player) :
    (is.foldl setTarget ps).map g = ps.map g := by
  induction is generalizing ps with
  | nil => rfl
  | cons i is ih => simp [List.foldl_cons, ih, map_setTarget_of_inv g h]

theorem map_assignTargets_of_inv {β : Type} (g : Player → β)
    (h : ∀ p t, g { p with targetId := t } = g p) (ps : List Player) :
    (assignTargets ps).map g = ps.map g :=
  map_foldl_setTarget_of_inv g h _ ps

theorem hostIds_eq_of_map_ident (ps : List Player) :
    hostIds ps = ((ps.map ident).filter fun x => x.2).map fun x => x.1 := by
  induction ps with
  | nil => rfl
  | cons p ps ih =>
    simp only [hostIds] at ih
    cases hp : p.isHost <;> simp [hostIds, ident, List.filter_cons, hp, ih]

theorem ids_eq_of_map_ident (ps : List Player) :
    (ps.map fun p => p.playerId) = (ps.map ident).map fun x => x.1 := by
  simp [List.map_map, Function.comp_def, ident]

theorem RoomOK_of_map_ident {r r' : Room} (h : RoomOK r) (hh : r'.hostId = r.hostId)
    (hp : r'.players.map ident = r.players.map ident) : RoomOK r' := by
  constructor
  · rw [hostIds_eq_of_map_ident, hp, ← hostIds_eq_of_map_ident, hh]; exact h.hosts
  · rw [ids_eq_of_map_ident, hp, ← ids_eq_of_map_ident]; exact h.nodup

theorem modifyFirst_append (pred : Player → Bool) (f : Player → Player)
    (l1 : List Player) (x : Player) (l2 : List Player)
    (h1 : ∀ y ∈ l1, pred y = false) (hx : pred x = true) :
    modifyFirst pred f (l1 ++ x :: l2) = l1 ++ f x :: l2 := by
  induction l1 with
  | nil => simp [modifyFirst, hx]
  | cons a l1 ih =>
    have ha : pred a = false := h1 a (List.mem_cons_self _ _)
    have ih' := ih (fun y hy => h1 y (List.mem_cons_of_mem _ hy))
    simp [modifyFirst, ha, ih']

theorem modifyFirst_of_forall_false (pred : Player → Bool) (f : Player → Player)
    (ps : List Player) (h : ∀ y ∈ ps, pred y = false) : modifyFirst pred f ps = ps := by
  induction ps with
  | nil => rfl
  | cons a ps ih =>
    have ha : pred a = false := h a (List.mem_cons_self _ _)
    simp [modifyFirst, ha, ih (fun y hy => h y (List.mem_cons_of_mem _ hy))]

theorem eraseIdx_findIdx_append (pred : Player → Bool)
    (l1 : List Player) (x : Player) (l2 : List Player)
    (h1 : ∀ y ∈ l1, pred y = false) (hx : pred x = true) :
    (l1 ++ x :: l2).eraseIdx ((l1 ++ x :: l2).findIdx pred) = l1 ++ l2 := by
  induction l1 with
  | nil => simp [List.findIdx_cons, hx]
  | cons a l1 ih =>
    have ha : pred a = false := h1 a (List.mem_cons_self _ _)
    have ih' := ih (fun y hy => h1 y (List.mem_cons_of_mem _ hy))
    simp [List.findIdx_cons, ha, ih']

theorem find?_split (pred : Player → Bool) (ps : List Player) (x : Player)
    (h : ps.find? pred = some x) :
    ∃ l1 l2, ps = l1 ++ x :: l2 ∧ (∀ y ∈ l1, pred y = false) ∧ pred x = true := by
  rw [List.find?_eq_some] at h
  obtain ⟨hx, l1, l2, hps, hl1⟩ := h
  exact ⟨l1, l2, hps, fun y hy => by simpa using hl1 y hy, hx⟩

theorem hostIds_append (l1 l2 : List Player) : hostIds (l1 ++ l2) = hostIds l1 ++ hostIds l2 := by
  simp [hostIds, List.filter_append]

theorem hostIds_cons (p : Player) (ps : List Player) :
    hostIds (p :: ps) = if p.isHost = true then p.playerId :: hostIds ps else hostIds ps := by
  cases hp : p.isHost <;> simp [hostIds, List.filter_cons, hp]

theorem hostIds_map_of_inv (f : Player → Player) (h : ∀ p, ident (f p) = ident p)
    (ps : List Player) : hostIds (ps.map f) = hostIds ps := by
  rw [hostIds_eq_of_map_ident, map_map_of_inv ident f h, ← hostIds_eq_of_map_ident]

theorem RoomOK.players_ne_nil {r : Room} (h : RoomOK r) : r.players ≠ [] := by
  intro hnil
  have := h.hosts
  rw [hnil] at this
  simp [hostIds] at this

theorem StoreOK_empty : StoreOK World.empty := by
  intro code room h
  simp [World.empty] at h

theorem StoreOK_save {w : World} (h : StoreOK w) (code : String) {room : Room}
    (hr : RoomOK room) : StoreOK (w.save code room) := by
  intro c r hc
  simp only [World.save, Function.update_apply] at hc
  split at hc
  · cases hc; exact hr
  · exact h c r hc

theorem StoreOK_deleteOne {w : World} (h : StoreOK w) (code : String) :
    StoreOK (w.deleteOne code) := by
  intro c r hc
  simp only [World.deleteOne, Function.update_apply] at hc
  split at hc
  · cases hc
  · exact h c r hc

theorem StoreOK_startRoomTimer {w : World} (h : StoreOK w) (code : String) :
    StoreOK (w.startRoomTimer code) := h

theorem StoreOK_stopRoomTimer {w : World} (h : StoreOK w) (code : String) :
    StoreOK (w.stopRoomTimer code) := h

theorem ident_resetForRound (r : Role) (p : Player) : ident (resetForRound r p) = ident p := rfl

theorem ident_clearPlayer (p : Player) : ident (clearPlayer p) = ident p := rfl

theorem ident_backfillPrompt (p : Player) : ident (backfillPrompt p) = ident p := by
  unfold backfillPrompt
  dsimp only
  split <;> split <;> rfl

theorem ident_backfillResponse (p : Player) : ident (backfillResponse p) = ident p := by
  unfold backfillResponse
  split <;> rfl

theorem ident_writePrompt (c : String) (p : Player) : ident (writePrompt c p) = ident p := by
  unfold writePrompt
  dsimp only
  split <;> split <;> rfl

theorem map_ident_clearReady (ps : List Player) : (clearReady ps).map ident = ps.map ident :=
  map_map_of_inv ident (fun p => { p with isReady := false }) (fun _ => rfl) ps

theorem StoreOK_save_of_ident {w : World} (h : StoreOK w) (code : String) {room room' : Room}
    (hr : RoomOK room) (hh : room'.hostId = room.hostId)
    (hp : room'.players.map ident = room.players.map ident) : StoreOK (w.save code room') :=
  StoreOK_save h code (RoomOK_of_map_ident hr hh hp)

theorem StoreOK_handleTimerExpiry {w : World} (h : StoreOK w) (code : String) {room : Room}
    (hr : RoomOK room) : StoreOK (handleTimerExpiry w code room).1 := by
  unfold handleTimerExpiry
  split
  · dsimp only
    split
    · refine StoreOK_startRoomTimer (StoreOK_save_of_ident h code hr ?_ ?_) code
      · rfl
      · simp only [map_ident_clearReady, map_map_of_inv ident _ ident_backfillPrompt]
    · refine StoreOK_stopRoomTimer (StoreOK_save_of_ident h code hr ?_ ?_) code
      · rfl
      · simp only [map_ident_clearReady, map_map_of_inv ident _ ident_backfillPrompt]
  · refine StoreOK_stopRoomTimer (StoreOK_save_of_ident h code hr ?_ ?_) code
    · rfl
    · simp only [map_map_of_inv ident _ ident_backfillResponse]
  · exact h

theorem StoreOK_timerTick {w : World} (h : StoreOK w) (code : String) :
    StoreOK (timerTick w code).1 := by
  unfold timerTick
  split
  · split
    · exact StoreOK_stopRoomTimer h code
    · rename_i room hroom
      have hr : RoomOK room := h code room hroom
      split
      · dsimp only
        split
        · refine StoreOK_save_of_ident h code hr ?_ ?_ <;> rfl
        · exact h
      · exact StoreOK_handleTimerExpiry (StoreOK_stopRoomTimer h code) code hr
  · exact h

theorem StoreOK_create_room {w : World} (h : StoreOK w) (s c n p : String) (d : Bool) :
    StoreOK (create_room w s c n p d).1 := by
  unfold create_room
  split
  · exact h
  · split
    · exact h
    · exact StoreOK_save h c ⟨by simp [hostIds], by simp⟩

theorem StoreOK_join_room {w : World} (h : StoreOK w) (s c n p : String) :
    StoreOK (join_room w s c n p).1 := by
  unfold join_room
  split
  · exact h
  · rename_i room hroom
    have hr : RoomOK room := h c room hroom
    dsimp only
    refine StoreOK_save h c ?_
    split
    · refine RoomOK_of_map_ident hr ?_ ?_
      · rfl
      · exact by apply map_modifyFirst_of_inv ident; intro q; rfl
    · rename_i hnone
      rw [List.find?_eq_none] at hnone
      constructor
      · simp only [hostIds_append, hostIds_cons]
        simpa [hostIds] using hr.hosts
      · simp only [List.map_append, List.map_cons, List.map_nil]
        rw [List.nodup_append]
        refine ⟨hr.nodup, by simp, ?_⟩
        intro a ha hb
        simp only [List.mem_singleton] at hb
        subst hb
        rw [List.mem_map] at ha
        obtain ⟨q, hq, hqa⟩ := ha
        exact hnone q hq (by simp [hqa])

theorem StoreOK_start_game {w : World} (h : StoreOK w) (s c : String) (t : Int) (p : String)
    (coin : Bool) : StoreOK (start_game w s c t p coin).1 := by
  unfold start_game
  split
  · exact h
  · rename_i room hroom
    have hr : RoomOK room := h c room hroom
    split
    · exact h
    · dsimp only
      split
      · exact h
      · refine StoreOK_startRoomTimer (StoreOK_save_of_ident h c hr ?_ ?_) c
        · rfl
        · dsimp only
          rw [map_assignTargets_of_inv ident (fun _ _ => rfl),
            map_map_of_inv ident _ (ident_resetForRound _)]

theorem StoreOK_submit_input {w : World} (h : StoreOK w) (c t p : String) :
    StoreOK (submit_input w c t p).1 := by
  unfold submit_input
  split
  · exact h
  · rename_i room hroom
    have hr : RoomOK room := h c room hroom
    split
    · exact h
    · rename_i player hplayer
      dsimp only
      have hps : (modifyFirst (fun q => some q.playerId == player.targetId) (writePrompt t)
          (modifyFirst (fun q => q.playerId == p) (fun q => { q with isReady := true })
            room.players)).map ident = room.players.map ident := by
        rw [map_modifyFirst_of_inv ident _ _ (ident_writePrompt t)]
        exact by apply map_modifyFirst_of_inv ident; intro q; rfl
      split
      · split
        · refine StoreOK_startRoomTimer
            (StoreOK_save_of_ident (StoreOK_save_of_ident h c hr ?_ ?_) c hr ?_ ?_) c
          · rfl
          · exact hps
          · rfl
          · simp only [map_ident_clearReady, hps]
        · refine StoreOK_stopRoomTimer
            (StoreOK_save_of_ident (StoreOK_save_of_ident h c hr ?_ ?_) c hr ?_ ?_) c
          · rfl
          · exact hps
          · rfl
          · simp only [map_ident_clearReady, hps]
      · refine StoreOK_save_of_ident h c hr ?_ ?_
        · rfl
        · exact hps

theorem StoreOK_submit_response {w : World} (h : StoreOK w) (c t p : String) :
    StoreOK (submit_response w c t p).1 := by
  unfold submit_response
  split
  · exact h
  · rename_i room hroom
    have hr : RoomOK room := h c room hroom
    split
    · exact h
    · dsimp only
      have hps : (modifyFirst (fun q => q.playerId == p)
          (fun q => { q with response := some (orElse t "(Empty Response)"), isReady := true })
            room.players).map ident = room.players.map ident :=
        by apply map_modifyFirst_of_inv ident; intro q; rfl
      split
      · refine StoreOK_stopRoomTimer
          (StoreOK_save_of_ident (StoreOK_save_of_ident h c hr ?_ ?_) c hr ?_ ?_) c
        · rfl
        · exact hps
        · rfl
        · simp only [map_ident_clearReady, hps]
      · refine StoreOK_save_of_ident h c hr ?_ ?_
        · rfl
        · exact hps

theorem StoreOK_next_round {w : World} (h : StoreOK w) (c p : String) :
    StoreOK (next_round w c p).1 := by
  unfold next_round
  split
  · exact h
  · rename_i room hroom
    have hr : RoomOK room := h c room hroom
    split
    · exact h
    · refine StoreOK_startRoomTimer (StoreOK_save_of_ident h c hr ?_ ?_) c
      · rfl
      · exact map_map_of_inv ident _ (ident_resetForRound _) _

theorem StoreOK_request_room_data {w : World} (h : StoreOK w) (s c p : String) :
    StoreOK (request_room_data w s c p).1 := by
  unfold request_room_data
  split
  · exact h
  · rename_i room hroom
    have hr : RoomOK room := h c room hroom
    split
    · refine StoreOK_save_of_ident h c hr ?_ ?_
      · rfl
      · exact by apply map_modifyFirst_of_inv ident; intro q; rfl
    · exact h

theorem hostIds_promoteFirst (ps : List Player) (h : hostIds ps = []) :
    hostIds (promoteFirst ps) = (ps.head?.map fun p => p.playerId).toList := by
  cases ps with
  | nil => rfl
  | cons a tl =>
    rw [hostIds_cons] at h
    have htl : hostIds tl = [] := by
      split at h
      · cases h
      · exact h
    simp [promoteFirst, hostIds_cons, htl]

theorem map_playerId_promoteFirst (ps : List Player) :
    (promoteFirst ps).map (fun p => p.playerId) = ps.map fun p => p.playerId := by
  cases ps <;> rfl

theorem StoreOK_leave_room {w : World} (h : StoreOK w) (s c p : String) :
    StoreOK (leave_room w s c p).1 := by
  unfold leave_room
  split
  · exact h
  · rename_i room hroom
    have hr : RoomOK room := h c room hroom
    split
    · exact h
    · rename_i leaver hleaver
      obtain ⟨l1, l2, hps, hl1, hx⟩ := find?_split _ _ _ hleaver
      have herase : room.players.eraseIdx (room.players.findIdx fun q => q.playerId == p)
          = l1 ++ l2 := by
        rw [hps]; exact eraseIdx_findIdx_append _ l1 leaver l2 hl1 hx
      have hnd : ((l1 ++ l2).map fun q => q.playerId).Nodup := by
        have := hr.nodup
        rw [hps] at this
        refine List.Nodup.sublist ?_ this
        exact List.Sublist.map _ (List.Sublist.append (List.Sublist.refl _) (List.sublist_cons_self _ _))
      have hhosts := hr.hosts
      rw [hps, hostIds_append, hostIds_cons] at hhosts
      dsimp only
      rw [herase]
      split
      · exact StoreOK_stopRoomTimer (StoreOK_deleteOne h c) c
      · rename_i first tl hrest
        refine StoreOK_save (StoreOK_stopRoomTimer h c) c ?_
        rw [hrest] at hnd
        constructor
        · dsimp only
          rw [hostIds_map_of_inv _ ident_clearPlayer, hrest]
          cases hhost : leaver.isHost
          · simp only [hhost, Bool.false_eq_true, if_false] at hhosts ⊢
            rw [← hostIds_append, hrest] at hhosts
            exact hhosts
          · simp only [hhost, if_true] at hhosts ⊢
            have hnil : hostIds (l1 ++ l2) = [] := by
              rw [hostIds_append]
              cases h1 : hostIds l1 with
              | nil =>
                rw [h1] at hhosts
                simp only [List.nil_append, List.cons.injEq] at hhosts
                rw [hhosts.2]; rfl
              | cons a t =>
                rw [h1] at hhosts
                simp at hhosts
            rw [hrest] at hnil
            rw [hostIds_promoteFirst _ hnil]
            rfl
        · dsimp only
          have : (fun q : Player => q.playerId) = (fun x : String × Bool => x.1) ∘ ident := rfl
          rw [this, ← List.map_map, map_map_of_inv ident _ ident_clearPlayer, List.map_map,
            ← this, hrest]
          split
          · rw [map_playerId_promoteFirst]; exact hnd
          · exact hnd

theorem StoreOK_step {w : World} (h : StoreOK w) (a : Action) : StoreOK (step w a).1 := by
  cases a with
  | create_room s c n p d => exact StoreOK_create_room h s c n p d
  | join_room s c n p => exact StoreOK_join_room h s c n p
  | start_game s c t p coin => exact StoreOK_start_game h s c t p coin
  | submit_input c t p => exact StoreOK_submit_input h c t p
  | submit_response c t p => exact StoreOK_submit_response h c t p
  | next_round c p => exact StoreOK_next_round h c p
  | request_room_data s c p => exact StoreOK_request_room_data h s c p
  | leave_room s c p => exact StoreOK_leave_room h s c p
  | timerTick c => exact StoreOK_timerTick h c

theorem StoreOK_run {w : World} (h : StoreOK w) (as : List Action) : StoreOK (run w as) := by
  induction as generalizing w with
  | nil => exact h
  | cons a as ih => exact ih (StoreOK_step h a)

theorem StoreOK_of_reachable {w : World} (h : Reachable w) : StoreOK w := by
  obtain ⟨as, rfl⟩ := h
  exact StoreOK_run StoreOK_empty as

/-- C1. In every server state reachable from start-up (the first stored session
comes from `create_room`) by any sequence of client events and timer firings,
every stored session has at least one participant, exactly one participant has
`isHost = true`, and every participant with `isHost = true` has the `playerId`
stored in `hostId`. -/
theorem host_unique_of_reachable (w : World) (code : String) (room : Room)
    (hw : Reachable w) (hroom : w.findOne code = some room) :
    room.players ≠ [] ∧
    (room.players.filter fun p => p.isHost).length = 1 ∧
    ∀ p ∈ room.players, p.isHost = true → p.playerId = room.hostId := by
  have hr : RoomOK room := StoreOK_of_reachable hw code room hroom
  refine ⟨hr.players_ne_nil, ?_, ?_⟩
  · have := congrArg List.length hr.hosts
    simpa [hostIds] using this
  · intro p hp hhost
    have hmem : p.playerId ∈ hostIds room.players := by
      simp only [hostIds, List.mem_map, List.mem_filter]
      exact ⟨p, ⟨hp, hhost⟩, rfl⟩
    rw [hr.hosts] at hmem
    simpa using hmem

theorem host_unique_of_reachable_witness :
    Reachable (run World.empty scenarioD) ∧
    (run World.empty scenarioD).findOne "AB12" = some roomD ∧
    (roomD.players ≠ [] ∧
      (roomD.players.filter fun p => p.isHost).length = 1 ∧
      ∀ p ∈ roomD.players, p.isHost = true → p.playerId = roomD.hostId) :=
  ⟨⟨scenarioD, rfl⟩, by decide,
    host_unique_of_reachable (run World.empty scenarioD) "AB12" roomD ⟨scenarioD, rfl⟩
      (by decide)⟩

/-! ## start_game -/

theorem getElem?_foldl_setTarget (ps : List Player) (k : Nat) (hk : k ≤ ps.length) :
    ((List.range k).foldl setTarget ps).length = ps.length ∧
    ∀ j, ((List.range k).foldl setTarget ps)[j]? =
      if j < k then
        ps[j]?.map fun p =>
          { p with targetId := ps[(j + 1) % ps.length]?.map fun q => q.playerId }
      else ps[j]? := by
  induction k with
  | zero => simp
  | succ k ih =>
    obtain ⟨hlen, hget⟩ := ih (Nat.le_of_succ_le hk)
    have hkn : k < ps.length := hk
    have hm : (k + 1) % ps.length < ps.length := Nat.mod_lt _ (by omega)
    rw [List.range_succ, List.foldl_append, List.foldl_cons, List.foldl_nil]
    generalize (List.range k).foldl setTarget ps = acc at hlen hget
    have hk1 : acc[k]? = some ps[k] := by
      rw [hget k]; simp [hkn]
    have hk2 : ∃ q, acc[(k + 1) % acc.length]? = some q ∧
        q.playerId = ps[(k + 1) % ps.length].playerId := by
      rw [hlen, hget]
      split
      · rw [List.getElem?_eq_getElem hm]
        exact ⟨_, rfl, rfl⟩
      · exact ⟨_, List.getElem?_eq_getElem hm, rfl⟩
    obtain ⟨q, hq, hqid⟩ := hk2
    have hset : setTarget acc k =
        acc.set k { ps[k] with targetId := some ps[(k + 1) % ps.length].playerId } := by
      unfold setTarget
      rw [hk1, hq]
      simp only [hqid]
    rw [hset]
    refine ⟨by simp [hlen], ?_⟩
    intro j
    rw [List.getElem?_set]
    by_cases hjk : k = j
    · subst hjk
      simp [hlen, hkn, List.getElem?_eq_getElem hm]
    · have : (j < k + 1) = (j < k) := by
        apply propext; constructor <;> intro h <;> omega
      simp only [hjk, if_false, this]
      exact hget j

theorem getElem?_assignTargets (ps : List Player) (j : Nat) :
    (assignTargets ps)[j]? =
      ps[j]?.map fun p =>
        { p with targetId := ps[(j + 1) % ps.length]?.map fun q => q.playerId } := by
  unfold assignTargets
  rw [(getElem?_foldl_setTarget ps ps.length (Nat.le_refl _)).2 j]
  split
  · rfl
  · rename_i h
    rw [List.getElem?_eq_none (Nat.le_of_not_lt h)]; rfl

theorem length_assignTargets (ps : List Player) : (assignTargets ps).length = ps.length :=
  (getElem?_foldl_setTarget ps ps.length (Nat.le_refl _)).1

theorem findOne_save_startRoomTimer (w : World) (code : String) (room : Room) :
    ((w.save code room).startRoomTimer code).findOne code = some room := by
  simp [World.findOne, World.save, World.startRoomTimer]

theorem findOne_save_stopRoomTimer (w : World) (code : String) (room : Room) :
    ((w.save code room).stopRoomTimer code).findOne code = some room := by
  simp [World.findOne, World.save, World.stopRoomTimer]

theorem findOne_save (w : World) (code : String) (room : Room) :
    (w.save code room).findOne code = some room := by
  simp [World.findOne, World.save]

theorem start_game_success (w : World) (s c : String) (t : Int) (p : String) (coin : Bool)
    (room : Room) (hroom : w.findOne c = some room) (hhost : room.hostId = p)
    (hn : 2 ≤ room.players.length) :
    start_game w s c t p coin =
      ((w.save c (startedRoom room t coin)).startRoomTimer c,
        [Effect.toRoom c (Msg.game_started (startedRoom room t coin))]) := by
  subst hhost
  unfold start_game
  rw [hroom]
  have h2 : ¬ room.players.length < 2 := by omega
  simp only [ne_eq, not_true_eq_false, if_false, h2]
  rfl

theorem mem_of_map_eq_map_const {β : Type} (g : Player → β) (b : β) (ps qs : List Player)
    (h : qs.map g = ps.map g) (hps : ∀ p ∈ ps, g p = b) : ∀ q ∈ qs, g q = b := by
  intro q hq
  have : g q ∈ ps.map g := by rw [← h]; exact List.mem_map_of_mem g hq
  rw [List.mem_map] at this
  obtain ⟨p, hp, hpq⟩ := this
  rw [← hpq]; exact hps p hp

/-- C3. A `start_game` issued by the host on a stored session with at least
two participants and a positive `turnTimer` `d` stores a session in phase
`input` with `timer = d` and `turnTimerUsed = d`, whose `currentRole` is truth or
dare; the participants are the same in number and `playerId`s, each has the
shared role, `truth`, `dare` and `response` equal to the empty string and
`isReady = false`, and participant `i` has as `targetId` the `playerId` of
participant `(i + 1) mod n`. -/
theorem start_game_postcondition (w : World) (s c : String) (d : Int) (p : String)
    (coin : Bool) (room : Room) (hroom : w.findOne c = some room) (hhost : room.hostId = p)
    (hn : 2 ≤ room.players.length) (hd : 0 < d) :
    ∃ room', (start_game w s c d p coin).1.findOne c = some room' ∧
      room'.phase = Phase.input ∧ room'.timer = d ∧ room'.turnTimerUsed = d ∧
      (room'.currentRole = some Role.truth ∨ room'.currentRole = some Role.dare) ∧
      room'.players.length = room.players.length ∧
      (room'.players.map fun q => q.playerId) = (room.players.map fun q => q.playerId) ∧
      (∀ q ∈ room'.players, q.role = room'.currentRole ∧ q.truth = some "" ∧
        q.dare = some "" ∧ q.response = some "" ∧ q.isReady = false) ∧
      ∀ i, i < room.players.length →
        ∃ a b, room'.players[i]? = some a ∧
          room'.players[(i + 1) % room.players.length]? = some b ∧
          a.targetId = some b.playerId := by
  have hd0 : d ≠ 0 := by omega
  refine ⟨startedRoom room d coin, ?_, rfl, ?_, ?_, ?_, ?_, ?_, ?_, ?_⟩
  · rw [start_game_success w s c d p coin room hroom hhost hn]
    exact findOne_save_startRoomTimer _ _ _
  · simp [startedRoom, hd0]
  · simp [startedRoom, hd0]
  · cases coin <;> simp [startedRoom]
  · simp [startedRoom, length_assignTargets]
  · simp only [startedRoom]
    rw [map_assignTargets_of_inv (fun q : Player => q.playerId) (by intro x t; rfl)]
    apply map_map_of_inv (fun q : Player => q.playerId)
    intro q; rfl
  · intro q hq
    have hmap : (startedRoom room d coin).players.map
          (fun q : Player => (q.role, q.truth, q.dare, q.response, q.isReady)) =
        (room.players.map (resetForRound (if coin = true then Role.truth else Role.dare))).map
          (fun q : Player => (q.role, q.truth, q.dare, q.response, q.isReady)) := by
      apply map_assignTargets_of_inv
        (fun q : Player => (q.role, q.truth, q.dare, q.response, q.isReady))
      intro x t; rfl
    have key := mem_of_map_eq_map_const
      (fun q : Player => (q.role, q.truth, q.dare, q.response, q.isReady))
      (some (if coin = true then Role.truth else Role.dare), some "", some "", some "", false)
      (room.players.map (resetForRound (if coin = true then Role.truth else Role.dare)))
      (startedRoom room d coin).players hmap
      (by
        intro x hx
        rw [List.mem_map] at hx
        obtain ⟨y, _, rfl⟩ := hx
        rfl) q hq
    simp only [Prod.mk.injEq] at key
    exact ⟨key.1, key.2.1, key.2.2.1, key.2.2.2.1, key.2.2.2.2⟩
  · intro i hi
    have hm : (i + 1) % room.players.length < room.players.length := Nat.mod_lt _ (by omega)
    simp only [startedRoom, getElem?_assignTargets, List.length_map, List.getElem?_map,
      List.getElem?_eq_getElem hi, List.getElem?_eq_getElem hm, Option.map_some']
    exact ⟨_, _, rfl, rfl, rfl⟩

theorem start_game_postcondition_witness :
    ∃ room', (start_game (run World.empty scenarioA) "s1" "AB12" 30 "p1" true).1.findOne "AB12"
        = some room' ∧
      room'.phase = Phase.input ∧ room'.timer = 30 ∧ room'.turnTimerUsed = 30 ∧
      (room'.currentRole = some Role.truth ∨ room'.currentRole = some Role.dare) ∧
      room'.players.length = lobbyA.players.length ∧
      (room'.players.map fun q => q.playerId) = (lobbyA.players.map fun q => q.playerId) ∧
      (∀ q ∈ room'.players, q.role = room'.currentRole ∧ q.truth = some "" ∧
        q.dare = some "" ∧ q.response = some "" ∧ q.isReady = false) ∧
      ∀ i, i < lobbyA.players.length →
        ∃ a b, room'.players[i]? = some a ∧
          room'.players[(i + 1) % lobbyA.players.length]? = some b ∧
          a.targetId = some b.playerId :=
  start_game_postcondition (run World.empty scenarioA) "s1" "AB12" 30 "p1" true lobbyA
    (by decide) (by decide) (by decide) (by decide)

/-- C4. A `start_game` issued by the host on a stored session with fewer than
two participants leaves the whole server state (store and timers) as it was
and emits exactly one thing: the error sent to the calling connection. -/
theorem start_game_capacity_rejected (w : World) (s c : String) (t : Int) (p : String)
    (coin : Bool) (room : Room) (hroom : w.findOne c = some room) (hhost : room.hostId = p)
    (hn : room.players.length < 2) :
    start_game w s c t p coin =
      (w, [Effect.toCaller s (Msg.error "Need 2 players to start")]) := by
  subst hhost
  unfold start_game
  rw [hroom]
  simp only [ne_eq, not_true_eq_false, if_false, hn, if_true]

theorem start_game_capacity_rejected_witness :
    start_game (run World.empty [Action.create_room "s1" "AB12" "Ann" "p1" true])
        "s1" "AB12" 30 "p1" true =
      (run World.empty [Action.create_room "s1" "AB12" "Ann" "p1" true],
        [Effect.toCaller "s1" (Msg.error "Need 2 players to start")]) :=
  start_game_capacity_rejected _ "s1" "AB12" 30 "p1" true
    { code := "AB12", hostId := "p1",
      players := [{ playerId := "p1", socketId := "s1", nickname := "Ann", isHost := true,
                    truth := none, dare := none, targetId := none, response := none,
                    role := none, isReady := false }],
      phase := Phase.lobby, currentRole := none, timer := 60, round := 1, turnTimerUsed := 60 }
    (by decide) (by decide) (by decide)

/-! ## Target cycle of a list of players -/

theorem val_finRotate (n : Nat) (i : Fin n) : ((finRotate n) i).val = (i.val + 1) % n := by
  cases n with
  | zero => exact i.elim0
  | succ n =>
    rw [coe_finRotate]
    split
    · rename_i h
      subst h
      simp
    · rename_i h
      have : i.val < n := by
        have := i.isLt
        have h' : i.val ≠ n := fun hh => h (Fin.ext hh)
        omega
      rw [Nat.mod_eq_of_lt (by omega)]

theorem index_eq_of_playerId_eq {ps : List Player}
    (hnd : (ps.map fun p => p.playerId).Nodup) {i j : Nat} (hi : i < ps.length)
    (hj : j < ps.length) (h : ps[i].playerId = ps[j].playerId) : i = j := by
  have hi' : i < (ps.map fun p => p.playerId).length := by simpa using hi
  have hj' : j < (ps.map fun p => p.playerId).length := by simpa using hj
  have e : (ps.map fun p => p.playerId)[i] = (ps.map fun p => p.playerId)[j] := by
    simpa using h
  exact (List.Nodup.getElem_inj_iff hnd).mp e

theorem Ring.targetId_getElem {ps : List Player} (h : Ring ps) (i : Nat) (hi : i < ps.length)
    (hm : (i + 1) % ps.length < ps.length) :
    ps[i].targetId = some ps[(i + 1) % ps.length].playerId := by
  have h1 := congrArg (fun l => l[i]?) h
  simp only [List.getElem?_map, List.getElem?_eq_getElem hi, Option.map_some'] at h1
  rw [List.getElem?_rotate (by simpa using hi)] at h1
  simp only [List.length_map, List.getElem?_map, List.getElem?_eq_getElem hm,
    Option.map_some'] at h1
  exact Option.some.inj h1

theorem find?_playerId_getElem (ps : List Player) (hnd : (ps.map fun p => p.playerId).Nodup)
    (j : Nat) (hj : j < ps.length) :
    ps.find? (fun q => some q.playerId == some ps[j].playerId) = some ps[j] := by
  rw [List.find?_eq_some]
  refine ⟨by simp, ps.take j, ps.drop (j + 1), ?_, ?_⟩
  · rw [← List.drop_eq_getElem_cons hj, List.take_append_drop]
  · intro a ha
    rw [List.mem_take_iff_getElem] at ha
    obtain ⟨k, hk, rfl⟩ := ha
    have hkj : k < j := (Nat.lt_min.mp hk).1
    simp only [Bool.not_eq_eq_eq_not, Bool.not_true, beq_eq_false_iff_ne, ne_eq,
      Option.some.injEq]
    intro heq
    have hk' : k < ps.length := by omega
    have := index_eq_of_playerId_eq hnd hk' hj heq
    omega

theorem TargetCycle_of_Ring {ps : List Player} (h : Ring ps)
    (hnd : (ps.map fun p => p.playerId).Nodup) (hn : 2 ≤ ps.length) : TargetCycle ps := by
  refine ⟨⟨finRotate ps.length, isCycle_finRotate_of_le hn,
    support_finRotate_of_le hn, ?_⟩, ?_⟩
  · intro i
    have hm : (i.val + 1) % ps.length < ps.length := Nat.mod_lt _ (by omega)
    have hget : ps.get (finRotate ps.length i) = ps[(i.val + 1) % ps.length] := by
      simp only [List.get_eq_getElem, val_finRotate]
    rw [hget]
    unfold targetOf
    rw [List.get_eq_getElem, h.targetId_getElem i.val i.isLt hm]
    exact find?_playerId_getElem ps hnd _ hm
  · intro p hp heq
    obtain ⟨i, hi, rfl⟩ := List.getElem_of_mem hp
    have hm : (i + 1) % ps.length < ps.length := Nat.mod_lt _ (by omega)
    rw [h.targetId_getElem i hi hm] at heq
    have := index_eq_of_playerId_eq hnd hm hi (Option.some.inj heq)
    rcases Nat.lt_or_ge (i + 1) ps.length with h1 | h1
    · rw [Nat.mod_eq_of_lt h1] at this; omega
    · have h2 : i + 1 = ps.length := by omega
      rw [h2, Nat.mod_self] at this
      omega

theorem Ring_of_map_link {ps qs : List Player} (h : Ring ps)
    (hl : qs.map link = ps.map link) : Ring qs := by
  have h1 : (qs.map fun p => p.targetId) = (ps.map fun p => p.targetId) := by
    have := congrArg (List.map fun x : String × Option String => x.2) hl
    simpa [List.map_map, Function.comp_def, link] using this
  have h2 : (qs.map fun p => p.playerId) = (ps.map fun p => p.playerId) := by
    have := congrArg (List.map fun x : String × Option String => x.1) hl
    simpa [List.map_map, Function.comp_def, link] using this
  unfold Ring
  rw [h1, h2]; exact h

theorem Ring_assignTargets (ps : List Player) : Ring (assignTargets ps) := by
  unfold Ring
  rw [map_assignTargets_of_inv (fun q : Player => q.playerId) (by intro x t; rfl)]
  apply List.ext_getElem?
  intro i
  simp only [List.getElem?_map, getElem?_assignTargets]
  rcases Nat.lt_or_ge i ps.length with hi | hi
  · have hm : (i + 1) % ps.length < ps.length := Nat.mod_lt _ (by omega)
    rw [List.getElem?_rotate (by simpa using hi)]
    simp [List.getElem?_eq_getElem hi, List.getElem?_eq_getElem hm]
  · have h2 : ((ps.map fun q => q.playerId).rotate 1).length ≤ i := by
      rw [List.length_rotate, List.length_map]; exact hi
    rw [List.getElem?_eq_none hi, List.getElem?_eq_none h2]
    rfl

/-! ## Target-cycle invariant -/

theorem RingOK_of_link {r r' : Room} (h : RingOK r)
    (hl : r'.players.map link = r.players.map link) (hc : r'.currentRole = r.currentRole)
    (hp : r'.phase = Phase.input ∨ r'.phase = Phase.action → r'.currentRole ≠ none) :
    RingOK r' :=
  ⟨fun hne => Ring_of_map_link (h.ring (hc ▸ hne)) hl, hp⟩

theorem RingStore_empty : RingStore World.empty := by
  intro code room h
  simp [World.empty] at h

theorem RingStore_save {w : World} (h : RingStore w) (code : String) {room : Room}
    (hr : RingOK room) : RingStore (w.save code room) := by
  intro c r hc
  simp only [World.save, Function.update_apply] at hc
  split at hc
  · cases hc; exact hr
  · exact h c r hc

theorem RingStore_deleteOne {w : World} (h : RingStore w) (code : String) :
    RingStore (w.deleteOne code) := by
  intro c r hc
  simp only [World.deleteOne, Function.update_apply] at hc
  split at hc
  · cases hc
  · exact h c r hc

theorem RingStore_startRoomTimer {w : World} (h : RingStore w) (code : String) :
    RingStore (w.startRoomTimer code) := h

theorem RingStore_stopRoomTimer {w : World} (h : RingStore w) (code : String) :
    RingStore (w.stopRoomTimer code) := h

theorem RingStore_save_of_link {w : World} (h : RingStore w) (code : String)
    {room room' : Room} (hr : RingOK room)
    (hl : room'.players.map link = room.players.map link)
    (hc : room'.currentRole = room.currentRole)
    (hp : room'.phase = Phase.input ∨ room'.phase = Phase.action → room'.currentRole ≠ none) :
    RingStore (w.save code room') :=
  RingStore_save h code (RingOK_of_link hr hl hc hp)

theorem link_resetForRound (r : Role) (p : Player) : link (resetForRound r p) = link p := rfl

theorem link_backfillPrompt (p : Player) : link (backfillPrompt p) = link p := by
  unfold backfillPrompt
  dsimp only
  split <;> split <;> rfl

theorem link_backfillResponse (p : Player) : link (backfillResponse p) = link p := by
  unfold backfillResponse
  split <;> rfl

theorem link_writePrompt (c : String) (p : Player) : link (writePrompt c p) = link p := by
  unfold writePrompt
  dsimp only
  split <;> split <;> rfl

theorem map_link_clearReady (ps : List Player) : (clearReady ps).map link = ps.map link :=
  map_map_of_inv link (fun p => { p with isReady := false }) (fun _ => rfl) ps

theorem RingStore_handleTimerExpiry {w : World} (h : RingStore w) (code : String) {room : Room}
    (hr : RingOK room) : RingStore (handleTimerExpiry w code room).1 := by
  unfold handleTimerExpiry
  split
  · dsimp only
    split
    · rename_i htruth
      refine RingStore_startRoomTimer (RingStore_save_of_link h code hr ?_ ?_ ?_) code
      · simp only [map_link_clearReady, map_map_of_inv link _ link_backfillPrompt]
      · rfl
      · intro _; dsimp only; rw [htruth]; simp
    · refine RingStore_stopRoomTimer (RingStore_save_of_link h code hr ?_ ?_ ?_) code
      · simp only [map_link_clearReady, map_map_of_inv link _ link_backfillPrompt]
      · rfl
      · intro hph; simp at hph
  · refine RingStore_stopRoomTimer (RingStore_save_of_link h code hr ?_ ?_ ?_) code
    · simp only [map_map_of_inv link _ link_backfillResponse]
    · rfl
    · intro hph; simp at hph
  · exact h

theorem RingStore_timerTick {w : World} (h : RingStore w) (code : String) :
    RingStore (timerTick w code).1 := by
  unfold timerTick
  split
  · split
    · exact RingStore_stopRoomTimer h code
    · rename_i room hroom
      have hr : RingOK room := h code room hroom
      split
      · dsimp only
        split
        · refine RingStore_save_of_link h code hr ?_ ?_ ?_
          · rfl
          · rfl
          · exact hr.role
        · exact h
      · exact RingStore_handleTimerExpiry (RingStore_stopRoomTimer h code) code hr
  · exact h

theorem RingStore_create_room {w : World} (h : RingStore w) (s c n p : String) (d : Bool) :
    RingStore (create_room w s c n p d).1 := by
  unfold create_room
  split
  · exact h
  · split
    · exact h
    · exact RingStore_save h c ⟨fun hne => absurd rfl hne, fun hph => by simp at hph⟩

theorem RingStore_join_room {w : World} (h : RingStore w) (s c n p : String)
    (adm : admissible w (Action.join_room s c n p) = true) :
    RingStore (join_room w s c n p).1 := by
  unfold join_room
  split
  · exact h
  · rename_i room hroom
    have hr : RingOK room := h c room hroom
    simp only [admissible, hroom, Bool.or_eq_true, Option.isNone_iff_eq_none] at adm
    dsimp only
    refine RingStore_save h c ?_
    split
    · refine RingOK_of_link hr ?_ rfl hr.role
      apply map_modifyFirst_of_inv link
      intro q; rfl
    · rename_i hnone
      rcases adm with hrole | hany
      · exact ⟨fun hne => absurd hrole hne, fun hph => absurd hrole (hr.role hph)⟩
      · rw [List.find?_eq_none] at hnone
        rw [List.any_eq_true] at hany
        obtain ⟨q, hq, hqp⟩ := hany
        exact absurd hqp (hnone q hq)

theorem RingStore_start_game {w : World} (h : RingStore w) (s c : String) (t : Int) (p : String)
    (coin : Bool) : RingStore (start_game w s c t p coin).1 := by
  unfold start_game
  split
  · exact h
  · split
    · exact h
    · dsimp only
      split
      · exact h
      · refine RingStore_startRoomTimer (RingStore_save h c ⟨fun _ => ?_, fun _ => ?_⟩) c
        · exact Ring_assignTargets _
        · simp

theorem RingStore_submit_input {w : World} (h : RingStore w) (c t p : String) :
    RingStore (submit_input w c t p).1 := by
  unfold submit_input
  split
  · exact h
  · rename_i room hroom
    have hr : RingOK room := h c room hroom
    split
    · exact h
    · rename_i player hplayer
      dsimp only
      have hps : (modifyFirst (fun q => some q.playerId == player.targetId) (writePrompt t)
          (modifyFirst (fun q => q.playerId == p) (fun q => { q with isReady := true })
            room.players)).map link = room.players.map link := by
        rw [map_modifyFirst_of_inv link _ _ (link_writePrompt t)]
        apply map_modifyFirst_of_inv link
        intro q; rfl
      split
      · split
        · rename_i htruth
          refine RingStore_startRoomTimer
            (RingStore_save_of_link (RingStore_save_of_link h c hr ?_ ?_ ?_) c hr ?_ ?_ ?_) c
          · exact hps
          · rfl
          · exact hr.role
          · simp only [map_link_clearReady, hps]
          · rfl
          · intro _; dsimp only at htruth ⊢; rw [htruth]; simp
        · refine RingStore_stopRoomTimer
            (RingStore_save_of_link (RingStore_save_of_link h c hr ?_ ?_ ?_) c hr ?_ ?_ ?_) c
          · exact hps
          · rfl
          · exact hr.role
          · simp only [map_link_clearReady, hps]
          · rfl
          · intro hph; simp at hph
      · refine RingStore_save_of_link h c hr ?_ ?_ ?_
        · exact hps
        · rfl
        · exact hr.role

theorem RingStore_submit_response {w : World} (h : RingStore w) (c t p : String) :
    RingStore (submit_response w c t p).1 := by
  unfold submit_response
  split
  · exact h
  · rename_i room hroom
    have hr : RingOK room := h c room hroom
    split
    · exact h
    · dsimp only
      have hps : (modifyFirst (fun q => q.playerId == p)
          (fun q => { q with response := some (orElse t "(Empty Response)"), isReady := true })
            room.players).map link = room.players.map link := by
        apply map_modifyFirst_of_inv link
        intro q; rfl
      split
      · refine RingStore_stopRoomTimer
          (RingStore_save_of_link (RingStore_save_of_link h c hr ?_ ?_ ?_) c hr ?_ ?_ ?_) c
        · exact hps
        · rfl
        · exact hr.role
        · simp only [map_link_clearReady, hps]
        · rfl
        · intro hph; simp at hph
      · refine RingStore_save_of_link h c hr ?_ ?_ ?_
        · exact hps
        · rfl
        · exact hr.role

theorem RingStore_next_round {w : World} (h : RingStore w) (c p : String)
    (adm : admissible w (Action.next_round c p) = true) :
    RingStore (next_round w c p).1 := by
  unfold next_round
  split
  · exact h
  · rename_i room hroom
    have hr : RingOK room := h c room hroom
    simp only [admissible, hroom, Option.isSome_iff_ne_none] at adm
    split
    · exact h
    · refine RingStore_startRoomTimer (RingStore_save h c ⟨fun _ => ?_, fun _ => ?_⟩) c
      · refine Ring_of_map_link (hr.ring adm) ?_
        exact map_map_of_inv link _ (link_resetForRound _) _
      · simp

theorem RingStore_request_room_data {w : World} (h : RingStore w) (s c p : String) :
    RingStore (request_room_data w s c p).1 := by
  unfold request_room_data
  split
  · exact h
  · rename_i room hroom
    have hr : RingOK room := h c room hroom
    split
    · refine RingStore_save_of_link h c hr ?_ ?_ ?_
      · apply map_modifyFirst_of_inv link
        intro q; rfl
      · rfl
      · exact hr.role
    · exact h

theorem RingStore_leave_room {w : World} (h : RingStore w) (s c p : String) :
    RingStore (leave_room w s c p).1 := by
  unfold leave_room
  split
  · exact h
  · split
    · exact h
    · dsimp only
      split
      · exact RingStore_stopRoomTimer (RingStore_deleteOne h c) c
      · exact RingStore_save (RingStore_stopRoomTimer h c) c
          ⟨fun hne => absurd rfl hne, fun hph => by simp at hph⟩

theorem RingStore_step {w : World} (h : RingStore w) (a : Action)
    (adm : admissible w a = true) : RingStore (step w a).1 := by
  cases a with
  | create_room s c n p d => exact RingStore_create_room h s c n p d
  | join_room s c n p => exact RingStore_join_room h s c n p adm
  | start_game s c t p coin => exact RingStore_start_game h s c t p coin
  | submit_input c t p => exact RingStore_submit_input h c t p
  | submit_response c t p => exact RingStore_submit_response h c t p
  | next_round c p => exact RingStore_next_round h c p adm
  | request_room_data s c p => exact RingStore_request_room_data h s c p
  | leave_room s c p => exact RingStore_leave_room h s c p
  | timerTick c => exact RingStore_timerTick h c

theorem RingStore_run {w : World} (h : RingStore w) (as : List Action)
    (adm : admissibleRun w as = true) : RingStore (run w as) := by
  induction as generalizing w with
  | nil => exact h
  | cons a as ih =>
    simp only [admissibleRun, Bool.and_eq_true] at adm
    exact ih (RingStore_step h a adm.1) adm.2

/-- C2, as stated, fails: after create_room, join_room, start_game and the
join_room of a third participant, the stored session is reachable, is in phase
`input` and has three participants, and the third one names no target, so the
target map is not a cycle through all participants. -/
theorem target_cycle_counterexample :
    Reachable (run World.empty scenarioLateJoin) ∧
    (run World.empty scenarioLateJoin).findOne "AB12" = some roomLateJoin ∧
    2 ≤ roomLateJoin.players.length ∧ roomLateJoin.phase = Phase.input ∧
    ¬ TargetCycle roomLateJoin.players := by
  refine ⟨⟨scenarioLateJoin, rfl⟩, by decide, by decide, rfl, ?_⟩
  rintro ⟨⟨σ, _, _, h⟩, _⟩
  have h2 := h ⟨2, by decide⟩
  have hnone : targetOf roomLateJoin.players (roomLateJoin.players.get ⟨2, by decide⟩) = none := by
    decide
  rw [hnone] at h2
  cases h2

/-- C2, amended. In every state reached from start-up by a sequence of actions
in which `join_room` adds a new participant only to a session whose
`currentRole` is null and `next_round` is issued only on a session whose
`currentRole` is set, every stored session with at least two participants in
phase `input` or `action` has a target map that is a single cycle through all
its participants, and no participant names itself. -/
theorem target_cycle_of_admissible (as : List Action) (code : String) (room : Room)
    (hadm : admissibleRun World.empty as = true)
    (hroom : (run World.empty as).findOne code = some room)
    (hn : 2 ≤ room.players.length)
    (hph : room.phase = Phase.input ∨ room.phase = Phase.action) :
    TargetCycle room.players := by
  have hring : RingOK room := RingStore_run RingStore_empty as hadm code room hroom
  have hok : RoomOK room := StoreOK_of_reachable ⟨as, rfl⟩ code room hroom
  exact TargetCycle_of_Ring (hring.ring (hring.role hph)) hok.nodup hn

theorem target_cycle_of_admissible_witness : TargetCycle roomStarted.players :=
  target_cycle_of_admissible scenarioStarted "AB12" roomStarted (by decide) (by decide)
    (by decide) (Or.inl rfl)

/-! ## submit_input -/

theorem getElem?_modifyFirst (pred : Player → Bool) (f : Player → Player) (ps : List Player)
    (k : Nat) :
    (modifyFirst pred f ps)[k]? = if k = ps.findIdx pred then ps[k]?.map f else ps[k]? := by
  induction ps generalizing k with
  | nil => simp [modifyFirst]
  | cons a ps ih =>
    unfold modifyFirst
    rw [List.findIdx_cons]
    cases ha : pred a
    · simp only [Bool.false_eq_true, if_false, cond_false]
      cases k with
      | zero => simp
      | succ k => simp [ih k]
    · simp only [if_true, cond_true]
      cases k with
      | zero => simp
      | succ k => simp

theorem findIdx_eq_of_map_eq {β : Type} (g : Player → β) (h : β → Bool) (pred : Player → Bool)
    (hpred : ∀ x, pred x = h (g x)) (ps qs : List Player) (hmap : qs.map g = ps.map g) :
    qs.findIdx pred = ps.findIdx pred := by
  induction ps generalizing qs with
  | nil =>
    cases qs with
    | nil => rfl
    | cons b qs => simp at hmap
  | cons a ps ih =>
    cases qs with
    | nil => simp at hmap
    | cons b qs =>
      simp only [List.map_cons, List.cons.injEq] at hmap
      rw [List.findIdx_cons, List.findIdx_cons, hpred a, hpred b, hmap.1, ih qs hmap.2]

theorem find?_eq_getElem?_findIdx (pred : Player → Bool) (ps : List Player) :
    ps.find? pred = ps[ps.findIdx pred]? := by
  induction ps with
  | nil => rfl
  | cons a ps ih =>
    rw [List.findIdx_cons, List.find?_cons]
    cases pred a
    · simpa using ih
    · simp

theorem length_modifyFirst (pred : Player → Bool) (f : Player → Player) (ps : List Player) :
    (modifyFirst pred f ps).length = ps.length := by
  have := congrArg List.length (map_modifyFirst_of_inv (fun _ => ()) pred f (fun _ => rfl) ps)
  simpa using this

theorem getElem?_inputWritten (room : Room) (content playerId : String) (player : Player)
    (k : Nat) :
    (inputWritten room content playerId player).players[k]? =
      let base := if k = room.players.findIdx (fun p => p.playerId == playerId)
        then room.players[k]?.map fun p => { p with isReady := true } else room.players[k]?
      if k = room.players.findIdx (fun p => some p.playerId == player.targetId)
        then base.map (writePrompt content) else base := by
  unfold inputWritten
  dsimp only
  rw [getElem?_modifyFirst, getElem?_modifyFirst]
  have hidx : (modifyFirst (fun p => p.playerId == playerId)
      (fun p => { p with isReady := true }) room.players).findIdx
        (fun p => some p.playerId == player.targetId) =
      room.players.findIdx (fun p => some p.playerId == player.targetId) := by
    apply findIdx_eq_of_map_eq (fun p : Player => p.playerId)
      (fun s => some s == player.targetId)
    · intro x; rfl
    · apply map_modifyFirst_of_inv (fun p : Player => p.playerId)
      intro q; rfl
  rw [hidx]

theorem submit_input_eq (w : World) (code content playerId : String) (room : Room)
    (player : Player) (hroom : w.findOne code = some room)
    (hplayer : room.players.find? (fun p => p.playerId == playerId) = some player) :
    submit_input w code content playerId =
      let room1 := inputWritten room content playerId player
      let w1 := w.save code room1
      let e1 := Effect.toRoom code (Msg.room_updated room1)
      if (room1.players.all fun p => p.isReady) = true then
        if room1.currentRole = some Role.truth then
          let room2 := { room1 with phase := Phase.action, timer := room1.turnTimerUsed,
                                    players := clearReady room1.players }
          ((w1.save code room2).startRoomTimer code,
            [e1, Effect.toRoom code (Msg.phase_change room2 Phase.action)])
        else
          let room2 := { room1 with phase := Phase.reveal, timer := 0,
                                    players := clearReady room1.players }
          ((w1.save code room2).stopRoomTimer code,
            [e1, Effect.toRoom code (Msg.phase_change room2 Phase.reveal)])
      else (w1, [e1]) := by
  unfold submit_input
  rw [hroom]
  dsimp only
  rw [hplayer]
  rfl

theorem orElse_of_ne (content dflt : String) (h : content ≠ "") : orElse content dflt = content := by
  simp [orElse, h]

theorem orElse_empty (dflt : String) : orElse "" dflt = dflt := by
  simp [orElse]

theorem writePrompt_truth (content : String) (t : Player) (h : t.role = some Role.truth) :
    writePrompt content t = { t with truth := some (orElse content "(Empty Question)") } := by
  simp [writePrompt, h]

theorem writePrompt_dare (content : String) (t : Player) (h : t.role = some Role.dare) :
    writePrompt content t = { t with dare := some (orElse content "(Empty Dare)") } := by
  simp [writePrompt, h]

theorem writePrompt_none (content : String) (t : Player) (h : t.role = none) :
    writePrompt content t = t := by
  simp [writePrompt, h]

theorem writePrompt_truth_of_ne (content : String) (t : Player)
    (h : t.role ≠ some Role.truth) : (writePrompt content t).truth = t.truth := by
  unfold writePrompt
  dsimp only
  rw [if_neg h]
  split <;> rfl

theorem writePrompt_dare_of_ne (content : String) (t : Player)
    (h : t.role ≠ some Role.dare) : (writePrompt content t).dare = t.dare := by
  unfold writePrompt
  dsimp only
  by_cases h1 : t.role = some Role.truth
  · rw [if_pos h1, if_neg h]
  · rw [if_neg h1, if_neg h]

theorem map_prompts_clearReady (ps : List Player) :
    ((clearReady ps).map fun x => (x.truth, x.dare)) = ps.map fun x => (x.truth, x.dare) :=
  map_map_of_inv (fun x : Player => (x.truth, x.dare)) (fun p => { p with isReady := false })
    (fun _ => rfl) ps

/-- C5. Let `p` be the participant that `submit_input` finds for `playerId` (at
position `i`) in a stored session in phase `input`, and `q` the participant
that `p.targetId` names (at position `j`). The room that the handler saves and
broadcasts as `room_updated` has `p` flagged ready, has the text (or, for an
empty text, the placeholder) in the slot of `q` selected by the role of `q`,
the other slot of `q` untouched, and the `truth` and `dare` of every other
participant untouched. The room that is stored when the handler returns has
the same prompts, and is that very room unless every participant was ready. -/
theorem submit_input_writes_target (w : World) (code content playerId : String) (room : Room)
    (p q : Player) (i j : Nat)
    (hroom : w.findOne code = some room) (_hphase : room.phase = Phase.input)
    (hi : i = room.players.findIdx fun x => x.playerId == playerId)
    (hp : room.players[i]? = some p)
    (hj : j = room.players.findIdx fun x => some x.playerId == p.targetId)
    (hq : room.players[j]? = some q) :
    ∃ room1 room',
      (submit_input w code content playerId).2.head? =
        some (Effect.toRoom code (Msg.room_updated room1)) ∧
      (submit_input w code content playerId).1.findOne code = some room' ∧
      (∃ a, room1.players[i]? = some a ∧ a.isReady = true) ∧
      (∃ b, room1.players[j]? = some b ∧
        (q.role = some Role.truth →
          b.truth = some (if content = "" then "(Empty Question)" else content)) ∧
        (q.role = some Role.dare →
          b.dare = some (if content = "" then "(Empty Dare)" else content)) ∧
        (q.role ≠ some Role.truth → b.truth = q.truth) ∧
        (q.role ≠ some Role.dare → b.dare = q.dare)) ∧
      (∀ k, k ≠ j →
        room1.players[k]?.map (fun x => (x.truth, x.dare)) =
          room.players[k]?.map (fun x => (x.truth, x.dare))) ∧
      (room'.players.map fun x => (x.truth, x.dare)) =
        (room1.players.map fun x => (x.truth, x.dare)) ∧
      ((room1.players.all fun x => x.isReady) = false → room' = room1) := by
  have hfind : room.players.find? (fun x => x.playerId == playerId) = some p := by
    rw [find?_eq_getElem?_findIdx, ← hi, hp]
  have heq := submit_input_eq w code content playerId room p hroom hfind
  have hget := getElem?_inputWritten room content playerId p
  dsimp only at heq hget
  rw [← hi, ← hj] at hget
  refine ⟨inputWritten room content playerId p, ?_⟩
  generalize inputWritten room content playerId p = room1 at heq hget
  have ha : ∃ a, room1.players[i]? = some a ∧ a.isReady = true := by
    rw [hget i]
    simp only [if_true, hp, Option.map_some']
    split
    · refine ⟨_, rfl, ?_⟩
      unfold writePrompt
      dsimp only
      split <;> split <;> rfl
    · exact ⟨_, rfl, rfl⟩
  have hb : ∃ b, room1.players[j]? = some b ∧
      (q.role = some Role.truth →
        b.truth = some (if content = "" then "(Empty Question)" else content)) ∧
      (q.role = some Role.dare →
        b.dare = some (if content = "" then "(Empty Dare)" else content)) ∧
      (q.role ≠ some Role.truth → b.truth = q.truth) ∧
      (q.role ≠ some Role.dare → b.dare = q.dare) := by
    rw [hget j]
    simp only [if_true, hq, Option.map_some']
    have hbase : ∃ q', (if j = i then some { q with isReady := true } else some q) = some q' ∧
        q'.role = q.role ∧ q'.truth = q.truth ∧ q'.dare = q.dare := by
      split
      · exact ⟨_, rfl, rfl, rfl, rfl⟩
      · exact ⟨_, rfl, rfl, rfl, rfl⟩
    obtain ⟨q', hq', hrole, htruth, hdare⟩ := hbase
    rw [hq']
    refine ⟨_, rfl, ?_, ?_, ?_, ?_⟩
    · intro h
      rw [writePrompt_truth content q' (hrole.trans h)]
      simp [orElse]
    · intro h
      rw [writePrompt_dare content q' (hrole.trans h)]
      simp [orElse]
    · intro h
      rw [← htruth]
      exact writePrompt_truth_of_ne content q' (hrole ▸ h)
    · intro h
      rw [← hdare]
      exact writePrompt_dare_of_ne content q' (hrole ▸ h)
  have hc : ∀ k, k ≠ j →
      room1.players[k]?.map (fun x => (x.truth, x.dare)) =
        room.players[k]?.map (fun x => (x.truth, x.dare)) := by
    intro k hk
    rw [hget k]
    simp only [hk, if_false]
    split
    · simp [Option.map_map, Function.comp_def]
    · rfl
  rw [heq]
  by_cases hall : (room1.players.all fun x => x.isReady) = true
  · simp only [hall, if_true]
    by_cases hrole : room1.currentRole = some Role.truth
    · simp only [hrole, if_true]
      refine ⟨_, rfl, findOne_save_startRoomTimer _ _ _, ha, hb, hc, map_prompts_clearReady _, ?_⟩
      intro h; exact absurd h (by decide)
    · simp only [hrole, if_false]
      refine ⟨_, rfl, findOne_save_stopRoomTimer _ _ _, ha, hb, hc, map_prompts_clearReady _, ?_⟩
      intro h; exact absurd h (by decide)
  · simp only [hall, if_false]
    exact ⟨_, rfl, findOne_save _ _ _, ha, hb, hc, rfl, fun _ => rfl⟩

theorem submit_input_writes_target_witness :
    ∃ room1 room',
      (submit_input (run World.empty scenarioStarted) "AB12" "Favorite color?" "p1").2.head? =
        some (Effect.toRoom "AB12" (Msg.room_updated room1)) ∧
      (submit_input (run World.empty scenarioStarted) "AB12" "Favorite color?" "p1").1.findOne
        "AB12" = some room' ∧
      (∃ a, room1.players[0]? = some a ∧ a.isReady = true) ∧
      (∃ b, room1.players[1]? = some b ∧
        (playerBob.role = some Role.truth →
          b.truth = some (if "Favorite color?" = "" then "(Empty Question)"
            else "Favorite color?")) ∧
        (playerBob.role = some Role.dare →
          b.dare = some (if "Favorite color?" = "" then "(Empty Dare)"
            else "Favorite color?")) ∧
        (playerBob.role ≠ some Role.truth → b.truth = playerBob.truth) ∧
        (playerBob.role ≠ some Role.dare → b.dare = playerBob.dare)) ∧
      (∀ k, k ≠ 1 →
        room1.players[k]?.map (fun x => (x.truth, x.dare)) =
          roomStarted.players[k]?.map (fun x => (x.truth, x.dare))) ∧
      (room'.players.map fun x => (x.truth, x.dare)) =
        (room1.players.map fun x => (x.truth, x.dare)) ∧
      ((room1.players.all fun x => x.isReady) = false → room' = room1) :=
  submit_input_writes_target (run World.empty scenarioStarted) "AB12" "Favorite color?" "p1"
    roomStarted playerAnn playerBob 0 1 (by decide) (by decide) (by decide) (by decide)
    (by decide) (by decide)

/-! ## Collecting prompts -/

theorem modifyFirst_eq_map {β : Type} [DecidableEq β] (g : Player → β) (b : β)
    (f : Player → Player) (ps : List Player) (hnd : (ps.map g).Nodup) :
    modifyFirst (fun x => decide (g x = b)) f ps =
      ps.map fun x => if g x = b then f x else x := by
  induction ps with
  | nil => rfl
  | cons a ps ih =>
    rw [List.map_cons, List.nodup_cons] at hnd
    unfold modifyFirst
    by_cases ha : g a = b
    · simp only [ha, decide_True, if_true, List.map_cons]
      congr 1
      symm
      rw [List.map_congr_left, List.map_id]
      intro x hx
      have : g x ≠ b := by
        intro hxb
        exact hnd.1 (ha ▸ hxb ▸ List.mem_map_of_mem g hx)
      simp [this]
    · simp only [ha, decide_False, Bool.false_eq_true, if_false, List.map_cons]
      rw [ih hnd.2]

theorem inputWritten_players_eq_map (room : Room) (content playerId : String) (player : Player)
    (hnd : (room.players.map fun p => p.playerId).Nodup) :
    (inputWritten room content playerId player).players =
      room.players.map (inputStep content playerId player.targetId) := by
  unfold inputWritten
  dsimp only
  have h1 : modifyFirst (fun p => p.playerId == playerId)
      (fun p => { p with isReady := true }) room.players =
      room.players.map fun x => if x.playerId = playerId then { x with isReady := true } else x := by
    have := modifyFirst_eq_map (fun p : Player => p.playerId) playerId
      (fun p => { p with isReady := true }) room.players hnd
    simpa [BEq.beq] using this
  rw [h1]
  have hnd2 : ((room.players.map fun x =>
      if x.playerId = playerId then { x with isReady := true } else x).map
        fun p : Player => some p.playerId).Nodup := by
    have : ((room.players.map fun x =>
        if x.playerId = playerId then { x with isReady := true } else x).map
          fun p : Player => some p.playerId) = (room.players.map fun p => p.playerId).map some := by
      rw [List.map_map, List.map_map]
      apply List.map_congr_left
      intro x _
      simp only [Function.comp]
      split <;> rfl
    rw [this]
    exact List.Nodup.map (Option.some_injective _) hnd
  have h2 := modifyFirst_eq_map (fun p : Player => some p.playerId) player.targetId
    (writePrompt content) _ hnd2
  have h3 : (fun p : Player => some p.playerId == player.targetId) =
      (fun x => decide (some x.playerId = player.targetId)) := by
    funext x
    rw [Bool.eq_iff_iff]
    simp
  rw [h3, h2, List.map_map]
  rfl

theorem falsy_orElse (content dflt : String) (h : dflt ≠ "") :
    falsy (some (orElse content dflt)) = false := by
  unfold orElse falsy
  by_cases hc : content = ""
  · simp [hc, h]
  · simp [hc]

theorem falsy_slot_writePrompt (r : Role) (content : String) (x : Player)
    (hr : x.role = some r) : falsy (slot r (writePrompt content x)) = false := by
  cases r with
  | truth =>
    rw [writePrompt_truth content x hr]
    exact falsy_orElse content _ (by decide)
  | dare =>
    rw [writePrompt_dare content x hr]
    exact falsy_orElse content _ (by decide)

theorem link_inputStep (content playerId : String) (target : Option String) (x : Player) :
    link (inputStep content playerId target x) = link x := by
  unfold inputStep
  dsimp only
  have h1 : link (if x.playerId = playerId then { x with isReady := true } else x) = link x := by
    split <;> rfl
  generalize (if x.playerId = playerId then { x with isReady := true } else x) = x1 at h1 ⊢
  split
  · rw [link_writePrompt]; exact h1
  · exact h1

theorem role_writePrompt (content : String) (x : Player) :
    (writePrompt content x).role = x.role := by
  unfold writePrompt
  dsimp only
  split <;> split <;> rfl

theorem isReady_writePrompt (content : String) (x : Player) :
    (writePrompt content x).isReady = x.isReady := by
  unfold writePrompt
  dsimp only
  split <;> split <;> rfl

theorem role_inputStep (content playerId : String) (target : Option String) (x : Player) :
    (inputStep content playerId target x).role = x.role := by
  unfold inputStep
  dsimp only
  have h1 : (if x.playerId = playerId then { x with isReady := true } else x).role = x.role := by
    split <;> rfl
  generalize (if x.playerId = playerId then { x with isReady := true } else x) = x1 at h1 ⊢
  split
  · rw [role_writePrompt]; exact h1
  · exact h1

theorem isReady_inputStep (content playerId : String) (target : Option String) (x : Player) :
    (inputStep content playerId target x).isReady = true ↔
      x.playerId = playerId ∨ x.isReady = true := by
  unfold inputStep
  dsimp only
  have h1 : (if x.playerId = playerId then { x with isReady := true } else x).isReady = true ↔
      x.playerId = playerId ∨ x.isReady = true := by
    split
    · rename_i h; simp [h]
    · rename_i h; simp [h]
  generalize (if x.playerId = playerId then { x with isReady := true } else x) = x1 at h1 ⊢
  split
  · rw [isReady_writePrompt]; exact h1
  · exact h1

theorem falsy_slot_inputStep (r : Role) (content playerId : String) (target : Option String)
    (x : Player) (hr : x.role = some r)
    (h : some x.playerId = target ∨ falsy (slot r x) = false) :
    falsy (slot r (inputStep content playerId target x)) = false := by
  unfold inputStep
  dsimp only
  have hid : (if x.playerId = playerId then { x with isReady := true } else x).playerId
      = x.playerId := by split <;> rfl
  have hrole : (if x.playerId = playerId then { x with isReady := true } else x).role
      = some r := by split <;> exact hr
  have hslot : slot r (if x.playerId = playerId then { x with isReady := true } else x)
      = slot r x := by split <;> cases r <;> rfl
  generalize (if x.playerId = playerId then { x with isReady := true } else x) = x1
    at hid hrole hslot ⊢
  split
  · exact falsy_slot_writePrompt r content _ hrole
  · rename_i hne
    rw [hslot]
    rcases h with h | h
    · exact absurd (hid ▸ h) hne
    · exact h

theorem playerId_inputStep (content playerId : String) (target : Option String) (x : Player) :
    (inputStep content playerId target x).playerId = x.playerId :=
  congrArg Prod.fst (link_inputStep content playerId target x)

theorem targetId_inputStep (content playerId : String) (target : Option String) (x : Player) :
    (inputStep content playerId target x).targetId = x.targetId :=
  congrArg Prod.snd (link_inputStep content playerId target x)

theorem ids_of_map_link {ps qs : List Player} (h : qs.map link = ps.map link) :
    (qs.map fun p => p.playerId) = ps.map fun p => p.playerId := by
  have := congrArg (List.map fun x : String × Option String => x.1) h
  simpa [List.map_map, Function.comp_def, link] using this

theorem eq_of_mem_of_playerId_eq {ps : List Player} (hnd : (ps.map fun p => p.playerId).Nodup)
    {x y : Player} (hx : x ∈ ps) (hy : y ∈ ps) (h : x.playerId = y.playerId) : x = y :=
  List.inj_on_of_nodup_map hnd hx hy h

theorem Collecting.submit {r : Role} {ps0 ps : List Player} {done : List String}
    (h : Collecting r ps0 done ps) (hnd0 : (ps0.map fun p => p.playerId).Nodup)
    (content playerId : String) (p : Player) (hp : p ∈ ps) (hpid : p.playerId = playerId) :
    Collecting r ps0 (playerId :: done) (ps.map (inputStep content playerId p.targetId)) := by
  have hnd : (ps.map fun p => p.playerId).Nodup := by rw [ids_of_map_link h.links]; exact hnd0
  constructor
  · rw [map_map_of_inv link _ (link_inputStep content playerId p.targetId)]
    exact h.links
  · intro x hx
    rw [List.mem_map] at hx
    obtain ⟨x0, hx0, rfl⟩ := hx
    rw [role_inputStep]; exact h.roles x0 hx0
  · intro x hx
    rw [List.mem_map] at hx
    obtain ⟨x0, hx0, rfl⟩ := hx
    rw [isReady_inputStep, playerId_inputStep, List.mem_cons, h.ready x0 hx0]
  · intro x hx y hy htarget hdone
    rw [List.mem_map] at hx hy
    obtain ⟨x0, hx0, rfl⟩ := hx
    obtain ⟨y0, hy0, rfl⟩ := hy
    rw [targetId_inputStep, playerId_inputStep] at htarget
    rw [playerId_inputStep, List.mem_cons] at hdone
    apply falsy_slot_inputStep r content playerId p.targetId y0 (h.roles y0 hy0)
    rcases hdone with hd | hd
    · left
      have : x0 = p := eq_of_mem_of_playerId_eq hnd hx0 hp (hd.trans hpid.symm)
      rw [← this, htarget]
    · right
      exact h.written x0 hx0 y0 hy0 htarget hd

/-! ## Full submission round trip -/

theorem Ring.exists_writer {ps : List Player} (h : Ring ps) (y : Player) (hy : y ∈ ps) :
    ∃ x ∈ ps, x.targetId = some y.playerId := by
  obtain ⟨k, hk, rfl⟩ := List.getElem_of_mem hy
  have hn : 0 < ps.length := by omega
  have hm : (k + ps.length - 1) % ps.length < ps.length := Nat.mod_lt _ hn
  refine ⟨ps[(k + ps.length - 1) % ps.length], List.getElem_mem _, ?_⟩
  have hm2 : ((k + ps.length - 1) % ps.length + 1) % ps.length < ps.length :=
    Nat.mod_lt _ hn
  rw [h.targetId_getElem _ hm hm2]
  have : ((k + ps.length - 1) % ps.length + 1) % ps.length = k := by
    rcases Nat.eq_zero_or_pos k with h0 | h0
    · subst h0
      have e : (0 + ps.length - 1) % ps.length = ps.length - 1 := by
        rw [Nat.zero_add]; exact Nat.mod_eq_of_lt (by omega)
      have e2 : ps.length - 1 + 1 = ps.length := by omega
      rw [e, e2, Nat.mod_self]
    · have e0 : k + ps.length - 1 = (k - 1) + ps.length := by omega
      have e : (k + ps.length - 1) % ps.length = k - 1 := by
        rw [e0, Nat.add_mod_right]; exact Nat.mod_eq_of_lt (by omega)
      have e2 : k - 1 + 1 = k := by omega
      rw [e, e2]; exact Nat.mod_eq_of_lt hk
  simp only [this]

theorem exists_find?_of_mem_ids (ps : List Player) (playerId : String)
    (h : playerId ∈ ps.map fun p => p.playerId) :
    ∃ p, ps.find? (fun x => x.playerId == playerId) = some p ∧ p ∈ ps ∧
      p.playerId = playerId := by
  cases hf : ps.find? (fun x => x.playerId == playerId) with
  | none =>
    rw [List.find?_eq_none] at hf
    rw [List.mem_map] at h
    obtain ⟨q, hq, hqid⟩ := h
    exact absurd (by simp [hqid]) (hf q hq)
  | some p =>
    refine ⟨p, rfl, List.mem_of_find?_eq_some hf, ?_⟩
    have := List.find?_some hf
    simpa using this

theorem CollectingRoom.after_submit {r : Role} {ps0 : List Player} {done : List String}
    {room : Room} (h : CollectingRoom r ps0 done room)
    (hnd0 : (ps0.map fun p => p.playerId).Nodup) (w : World) (code content playerId : String)
    (hroom : w.findOne code = some room)
    (hid : playerId ∈ ps0.map fun p => p.playerId) :
    ∃ room1, CollectingRoom r ps0 (playerId :: done) room1 ∧
      room1.turnTimerUsed = room.turnTimerUsed ∧
      TruthDare.submit_input w code content playerId =
        (if (room1.players.all fun p => p.isReady) = true then
          if room1.currentRole = some Role.truth then
            (((w.save code room1).save code
                { room1 with phase := Phase.action, timer := room1.turnTimerUsed,
                             players := clearReady room1.players }).startRoomTimer code,
              [Effect.toRoom code (Msg.room_updated room1),
               Effect.toRoom code (Msg.phase_change
                { room1 with phase := Phase.action, timer := room1.turnTimerUsed,
                             players := clearReady room1.players } Phase.action)])
          else
            (((w.save code room1).save code
                { room1 with phase := Phase.reveal, timer := 0,
                             players := clearReady room1.players }).stopRoomTimer code,
              [Effect.toRoom code (Msg.room_updated room1),
               Effect.toRoom code (Msg.phase_change
                { room1 with phase := Phase.reveal, timer := 0,
                             players := clearReady room1.players } Phase.reveal)])
        else (w.save code room1, [Effect.toRoom code (Msg.room_updated room1)])) := by
  have hnd : (room.players.map fun p => p.playerId).Nodup := by
    rw [ids_of_map_link h.players.links]; exact hnd0
  rw [← ids_of_map_link h.players.links] at hid
  obtain ⟨p, hfind, hp, hpid⟩ := exists_find?_of_mem_ids room.players playerId hid
  refine ⟨inputWritten room content playerId p, ⟨?_, h.phase, h.currentRole⟩, rfl, ?_⟩
  · rw [inputWritten_players_eq_map room content playerId p hnd]
    exact h.players.submit hnd0 content playerId p hp hpid
  · exact submit_input_eq w code content playerId room p hroom hfind

theorem CollectingRoom.all_ready_iff {r : Role} {ps0 : List Player} {done : List String}
    {room : Room} (h : CollectingRoom r ps0 done room) :
    (room.players.all fun p => p.isReady) = true ↔
      ∀ x ∈ ps0.map (fun p => p.playerId), x ∈ done := by
  rw [← ids_of_map_link h.players.links, List.all_eq_true]
  constructor
  · intro hall x hx
    rw [List.mem_map] at hx
    obtain ⟨q, hq, rfl⟩ := hx
    exact (h.players.ready q hq).mp (hall q hq)
  · intro hall q hq
    exact (h.players.ready q hq).mpr (hall _ (List.mem_map_of_mem _ hq))

theorem trace_cons (w : World) (a : Action) (as : List Action) :
    trace w (a :: as) = (step w a).2 ++ trace (step w a).1 as := rfl

theorem run_cons (w : World) (a : Action) (as : List Action) :
    run w (a :: as) = run (step w a).1 as := rfl

theorem submit_all {r : Role} {ps0 : List Player} (code : String)
    (hnd0 : (ps0.map fun p => p.playerId).Nodup) (hring : Ring ps0) :
    ∀ (rest : List (String × String)) (done : List String) (w : World) (room : Room),
      rest ≠ [] → w.findOne code = some room → CollectingRoom r ps0 done room →
      (done ++ rest.map Prod.fst).Perm (ps0.map fun p => p.playerId) →
      (∀ k, k < rest.length → ∃ rk,
        (run w ((submissions code rest).take k)).findOne code = some rk ∧
          rk.phase = Phase.input) ∧
      ∃ room', (run w (submissions code rest)).findOne code = some room' ∧
        (trace w (submissions code rest)).countP isPhaseChange = 1 ∧
        room'.currentRole = some r ∧
        room'.turnTimerUsed = room.turnTimerUsed ∧
        room'.players.map link = ps0.map link ∧
        (∀ q ∈ room'.players,
          q.role = some r ∧ falsy (slot r q) = false ∧ q.isReady = false) ∧
        room'.phase = (if r = Role.truth then Phase.action else Phase.reveal) ∧
        room'.timer = (if r = Role.truth then room.turnTimerUsed else 0) := by
  intro rest
  induction rest with
  | nil => intro _ _ _ h; exact absurd rfl h
  | cons s rest ih =>
    intro done w room _ hroom hcol hperm
    have hnodup : (done ++ (s :: rest).map Prod.fst).Nodup := hperm.nodup_iff.mpr hnd0
    have hsid : s.1 ∈ ps0.map fun p => p.playerId :=
      hperm.subset (by simp)
    obtain ⟨room1, hcol1, htimer1, hstep⟩ :=
      hcol.after_submit hnd0 w code s.2 s.1 hroom hsid
    have hperm1 : ((s.1 :: done) ++ rest.map Prod.fst).Perm (ps0.map fun p => p.playerId) := by
      refine List.Perm.trans ?_ hperm
      simp only [List.map_cons, List.cons_append]
      exact List.perm_middle.symm
    have hall := hcol1.all_ready_iff
    cases rest with
    | nil =>
      have hready : (room1.players.all fun p => p.isReady) = true := by
        rw [hall]
        intro x hx
        have := hperm1.symm.subset hx
        simpa using this
      rw [if_pos hready] at hstep
      refine ⟨?_, ?_⟩
      · intro k hk
        have hk0 : k = 0 := by simpa using hk
        subst hk0
        exact ⟨room, hroom, hcol.phase⟩
      · have hslots : ∀ q ∈ clearReady room1.players,
            q.role = some r ∧ falsy (slot r q) = false ∧ q.isReady = false := by
          intro q hq
          unfold clearReady at hq
          rw [List.mem_map] at hq
          obtain ⟨q0, hq0, rfl⟩ := hq
          refine ⟨hcol1.players.roles q0 hq0, ?_, rfl⟩
          have hring1 : Ring room1.players := Ring_of_map_link hring hcol1.players.links
          obtain ⟨x, hx, hxt⟩ := hring1.exists_writer q0 hq0
          have hxdone : x.playerId ∈ s.1 :: done :=
            (hcol1.players.ready x hx).mp ((List.all_eq_true.mp hready) x hx)
          have := hcol1.players.written x hx q0 hq0 hxt hxdone
          cases r <;> exact this
        have hlinks : (clearReady room1.players).map link = ps0.map link := by
          rw [map_link_clearReady]; exact hcol1.players.links
        cases r with
        | truth =>
          rw [if_pos hcol1.currentRole] at hstep
          simp only [submissions, List.map_cons, List.map_nil, run_cons, trace_cons, step, hstep,
            run, trace]
          exact ⟨_, findOne_save_startRoomTimer _ _ _, by simp [isPhaseChange],
            hcol1.currentRole, htimer1, hlinks, hslots, rfl, htimer1⟩
        | dare =>
          have hne : ¬ room1.currentRole = some Role.truth := by
            rw [hcol1.currentRole]; simp
          rw [if_neg hne] at hstep
          simp only [submissions, List.map_cons, List.map_nil, run_cons, trace_cons, step, hstep,
            run, trace]
          exact ⟨_, findOne_save_stopRoomTimer _ _ _, by simp [isPhaseChange],
            hcol1.currentRole, htimer1, hlinks, hslots, by simp, by simp⟩
    | cons s2 rest2 =>
      have hnot : ¬ (room1.players.all fun p => p.isReady) = true := by
        rw [hall]
        intro hcontra
        have hs2 : s2.1 ∈ ps0.map fun p => p.playerId := hperm.subset (by simp)
        have hmem := hcontra _ hs2
        have hnd1 : ((s.1 :: done) ++ (s2 :: rest2).map Prod.fst).Nodup :=
          hperm1.nodup_iff.mpr hnd0
        rw [List.nodup_append] at hnd1
        exact hnd1.2.2 hmem (by simp)
      rw [if_neg hnot] at hstep
      have hroom1 : (w.save code room1).findOne code = some room1 := findOne_save _ _ _
      obtain ⟨hpre, room', h1, h2, h3, h4, h5, h6, h7, h8⟩ :=
        ih (s.1 :: done) (w.save code room1) room1 (by simp) hroom1 hcol1 hperm1
      have hrun : ∀ as, run w (Action.submit_input code s.2 s.1 :: as) =
          run (w.save code room1) as := by
        intro as
        rw [run_cons]
        simp only [step, hstep]
      refine ⟨?_, ?_⟩
      · intro k hk
        cases k with
        | zero => exact ⟨room, hroom, hcol.phase⟩
        | succ k =>
          have hk' : k < (s2 :: rest2).length := by simpa using hk
          obtain ⟨rk, hrk, hph⟩ := hpre k hk'
          refine ⟨rk, ?_, hph⟩
          have : (submissions code (s :: s2 :: rest2)).take (k + 1) =
              Action.submit_input code s.2 s.1 :: (submissions code (s2 :: rest2)).take k := rfl
          rw [this, hrun]
          exact hrk
      · refine ⟨room', ?_, ?_, h3, h4.trans htimer1, h5, h6, h7, ?_⟩
        · have : submissions code (s :: s2 :: rest2) =
              Action.submit_input code s.2 s.1 :: submissions code (s2 :: rest2) := rfl
          rw [this, hrun]; exact h1
        · have : submissions code (s :: s2 :: rest2) =
              Action.submit_input code s.2 s.1 :: submissions code (s2 :: rest2) := rfl
          rw [this, trace_cons]
          simp only [step, hstep, List.countP_append]
          rw [h2]
          simp [isPhaseChange]
        · rw [h8, htimer1]

theorem CollectingRoom_startedRoom (room : Room) (t : Int) (coin : Bool) :
    CollectingRoom (if coin = true then Role.truth else Role.dare)
      (startedRoom room t coin).players [] (startedRoom room t coin) := by
  have hmap : (startedRoom room t coin).players.map
        (fun q : Player => (q.role, q.isReady)) =
      (room.players.map (resetForRound (if coin = true then Role.truth else Role.dare))).map
        (fun q : Player => (q.role, q.isReady)) := by
    apply map_assignTargets_of_inv (fun q : Player => (q.role, q.isReady))
    intro x t; rfl
  have key := mem_of_map_eq_map_const (fun q : Player => (q.role, q.isReady))
    (some (if coin = true then Role.truth else Role.dare), false)
    (room.players.map (resetForRound (if coin = true then Role.truth else Role.dare)))
    (startedRoom room t coin).players hmap
    (by
      intro x hx
      rw [List.mem_map] at hx
      obtain ⟨y, _, rfl⟩ := hx
      rfl)
  refine ⟨⟨rfl, ?_, ?_, ?_⟩, rfl, rfl⟩
  · intro x hx
    exact (Prod.mk.injEq _ _ _ _ ▸ key x hx).1
  · intro x hx
    have := (Prod.mk.injEq _ _ _ _ ▸ key x hx).2
    simp [this]
  · intro x _ y _ _ hdone
    cases hdone

/-- C6. From the session stored by a successful `start_game` (host, at least
two participants with distinct `playerId`s), let every participant perform
`submit_input` exactly once, in any order and with any texts. Before each of
these submissions the stored phase is `input`; after the last one the stored
session has the same participants, exactly one `phase_change` has been
broadcast in the whole run, every participant has the shared role, a
non-empty prompt in the slot of that role and `isReady = false`; the phase is
`action` with `timer = turnTimerUsed` when the shared role is truth and
`reveal` with `timer = 0` when it is dare. -/
theorem full_submission_round_trip (w : World) (s code : String) (t : Int) (p : String)
    (coin : Bool) (room : Room) (subs : List (String × String))
    (hroom : w.findOne code = some room) (hhost : room.hostId = p)
    (hn : 2 ≤ room.players.length)
    (hnd : (room.players.map fun q => q.playerId).Nodup)
    (hsubs : (subs.map Prod.fst).Perm (room.players.map fun q => q.playerId)) :
    (∀ k, k < subs.length → ∃ rk,
      (run (start_game w s code t p coin).1 ((submissions code subs).take k)).findOne code
        = some rk ∧ rk.phase = Phase.input) ∧
    ∃ room', (run (start_game w s code t p coin).1 (submissions code subs)).findOne code
        = some room' ∧
      (trace (start_game w s code t p coin).1 (submissions code subs)).countP isPhaseChange
        = 1 ∧
      (room'.players.map fun q => q.playerId) = (room.players.map fun q => q.playerId) ∧
      (∀ q ∈ room'.players, q.role = room'.currentRole ∧ q.isReady = false) ∧
      (coin = true → room'.currentRole = some Role.truth ∧ room'.phase = Phase.action ∧
        room'.timer = room'.turnTimerUsed ∧ ∀ q ∈ room'.players, falsy q.truth = false) ∧
      (coin = false → room'.currentRole = some Role.dare ∧ room'.phase = Phase.reveal ∧
        room'.timer = 0 ∧ ∀ q ∈ room'.players, falsy q.dare = false) := by
  have hids : ((startedRoom room t coin).players.map fun q => q.playerId) =
      room.players.map fun q => q.playerId := by
    simp only [startedRoom]
    rw [map_assignTargets_of_inv (fun q : Player => q.playerId) (by intro x t; rfl)]
    apply map_map_of_inv (fun q : Player => q.playerId)
    intro q; rfl
  have hnd0 : ((startedRoom room t coin).players.map fun q => q.playerId).Nodup := by
    rw [hids]; exact hnd
  have hring : Ring (startedRoom room t coin).players := Ring_assignTargets _
  have hne : subs ≠ [] := by
    intro h
    subst h
    have := hsubs.length_eq
    simp at this
    omega
  rw [start_game_success w s code t p coin room hroom hhost hn]
  obtain ⟨hpre, room', h1, h2, h3, h4, h5, h6, h7, h8⟩ :=
    submit_all code hnd0 hring subs []
      ((w.save code (startedRoom room t coin)).startRoomTimer code) (startedRoom room t coin)
      hne (findOne_save_startRoomTimer _ _ _) (CollectingRoom_startedRoom room t coin)
      (by rw [hids]; simpa using hsubs)
  refine ⟨hpre, room', h1, h2, ?_, ?_, ?_, ?_⟩
  · rw [ids_of_map_link h5, hids]
  · intro q hq
    rw [h3]
    exact ⟨(h6 q hq).1, (h6 q hq).2.2⟩
  · intro hc
    subst hc
    simp only [if_true] at h3 h6 h7 h8
    refine ⟨h3, h7, ?_, fun q hq => (h6 q hq).2.1⟩
    rw [h8, h4]
  · intro hc
    subst hc
    simp only [Bool.false_eq_true, if_false] at h3 h6 h7 h8
    refine ⟨h3, ?_, ?_, fun q hq => (h6 q hq).2.1⟩
    · simpa using h7
    · simpa using h8

theorem full_submission_round_trip_witness :
    (∀ k, k < [("p2", ""), ("p1", "Favorite color?")].length → ∃ rk,
      (run (start_game (run World.empty scenarioA) "s1" "AB12" 30 "p1" true).1
        ((submissions "AB12" [("p2", ""), ("p1", "Favorite color?")]).take k)).findOne "AB12"
        = some rk ∧ rk.phase = Phase.input) ∧
    ∃ room', (run (start_game (run World.empty scenarioA) "s1" "AB12" 30 "p1" true).1
        (submissions "AB12" [("p2", ""), ("p1", "Favorite color?")])).findOne "AB12"
        = some room' ∧
      (trace (start_game (run World.empty scenarioA) "s1" "AB12" 30 "p1" true).1
        (submissions "AB12" [("p2", ""), ("p1", "Favorite color?")])).countP isPhaseChange
        = 1 ∧
      (room'.players.map fun q => q.playerId) = (lobbyA.players.map fun q => q.playerId) ∧
      (∀ q ∈ room'.players, q.role = room'.currentRole ∧ q.isReady = false) ∧
      (true = true → room'.currentRole = some Role.truth ∧ room'.phase = Phase.action ∧
        room'.timer = room'.turnTimerUsed ∧ ∀ q ∈ room'.players, falsy q.truth = false) ∧
      (true = false → room'.currentRole = some Role.dare ∧ room'.phase = Phase.reveal ∧
        room'.timer = 0 ∧ ∀ q ∈ room'.players, falsy q.dare = false) :=
  full_submission_round_trip (run World.empty scenarioA) "s1" "AB12" 30 "p1" true lobbyA
    [("p2", ""), ("p1", "Favorite color?")] (by decide) (by decide) (by decide) (by decide)
    (by decide)

/-! ## Countdown -/

theorem timerTick_not_saved (w : World) (code : String) (room : Room)
    (harmed : w.timers code = true) (hroom : w.findOne code = some room)
    (hpos : 0 < room.timer) (hmod : (room.timer - 1) % 5 ≠ 0) :
    timerTick w code = (w, [Effect.toRoom code (Msg.timer_tick (room.timer - 1))]) := by
  unfold timerTick
  rw [if_pos harmed, hroom]
  simp only [gt_iff_lt, hpos, if_true, hmod, if_false]

theorem run_timerTick_not_saved (w : World) (code : String) (room : Room)
    (harmed : w.timers code = true) (hroom : w.findOne code = some room)
    (hpos : 0 < room.timer) (hmod : (room.timer - 1) % 5 ≠ 0) (n : Nat) :
    run w (List.replicate n (Action.timerTick code)) = w := by
  induction n with
  | zero => rfl
  | succ n ih =>
    rw [List.replicate_succ, run_cons]
    simp only [step, timerTick_not_saved w code room harmed hroom hpos hmod]
    exact ih

/-- C7 fails on the code. After the start of a thirty-second round the timer
of the room is live and the stored `timer` is 30. The first firing emits
`timer_tick 29` without saving; the second firing reloads the stored 30 and
emits `timer_tick 29` again where the claim has 28; and after any number of
firings with no other action the stored room is still the started one, in phase
`input` with `timer = 30`, so the deadline is never applied. -/
theorem countdown_stuck_at_first_tick :
    (run World.empty scenarioStarted).timers "AB12" = true ∧
    (run World.empty scenarioStarted).findOne "AB12" = some roomStarted ∧
    roomStarted.phase = Phase.input ∧ roomStarted.timer = 30 ∧
    (timerTick (run World.empty scenarioStarted) "AB12").2 =
      [Effect.toRoom "AB12" (Msg.timer_tick 29)] ∧
    (timerTick (timerTick (run World.empty scenarioStarted) "AB12").1 "AB12").2 =
      [Effect.toRoom "AB12" (Msg.timer_tick 29)] ∧
    ∀ n, (run (run World.empty scenarioStarted)
      (List.replicate n (Action.timerTick "AB12"))).findOne "AB12" = some roomStarted := by
  have harmed : (run World.empty scenarioStarted).timers "AB12" = true := by decide
  have hroom : (run World.empty scenarioStarted).findOne "AB12" = some roomStarted := by decide
  have h1 := timerTick_not_saved (run World.empty scenarioStarted) "AB12" roomStarted harmed hroom
    (by decide) (by decide)
  refine ⟨harmed, hroom, rfl, rfl, ?_, ?_, ?_⟩
  · rw [h1]; rfl
  · rw [h1]
    show (timerTick (run World.empty scenarioStarted) "AB12").2 = _
    rw [h1]; rfl
  · intro n
    rw [run_timerTick_not_saved _ "AB12" roomStarted harmed hroom (by decide) (by decide) n]
    exact hroom

/-! ## Deadline while collecting -/

theorem backfillPrompt_spec (r : Role) (p : Player) (hr : p.role = some r) :
    (falsy (slot r p) = false → backfillPrompt p = p) ∧
    (falsy (slot r p) = true →
      slot r (backfillPrompt p) = some (expiryPlaceholder r) ∧
      (backfillPrompt p).isReady = p.isReady ∧
      (backfillPrompt p).response = p.response ∧
      (r = Role.truth → (backfillPrompt p).dare = p.dare) ∧
      (r = Role.dare → (backfillPrompt p).truth = p.truth)) := by
  unfold backfillPrompt
  cases r with
  | truth =>
    simp only [slot, hr, true_and, expiryPlaceholder]
    constructor
    · intro h
      simp [h, hr]
    · intro h
      simp [h, hr]
  | dare =>
    simp only [slot, hr, true_and, expiryPlaceholder]
    constructor
    · intro h
      simp [h, hr]
    · intro h
      simp [h, hr]

/-- C8. For a session in phase `input` whose `currentRole` is `r` and whose
participants all have role `r`, `handleTimerExpiry` stores a session with the
same number of participants in which, position by position, a non-empty
prompt (slot of `r`) is unchanged and an empty one is the placeholder, every
`isReady` is false, `response` and the other slot are untouched, and the phase
is advanced as after a full submission: `action` with `timer = turnTimerUsed`
and the timer re-armed when `r` is truth, `reveal` with `timer = 0` and the
timer stopped when `r` is dare. -/
theorem deadline_in_collecting (w : World) (code : String) (room : Room) (r : Role)
    (hphase : room.phase = Phase.input) (hrole : room.currentRole = some r)
    (hroles : ∀ p ∈ room.players, p.role = some r) :
    ∃ room', (handleTimerExpiry w code room).1.findOne code = some room' ∧
      (handleTimerExpiry w code room).2 =
        [Effect.toRoom code (Msg.phase_change room' room'.phase)] ∧
      room'.players.length = room.players.length ∧
      (∀ (k : Nat) (p : Player), room.players[k]? = some p → ∃ p', room'.players[k]? = some p' ∧
        (falsy (slot r p) = false → slot r p' = slot r p) ∧
        (falsy (slot r p) = true → slot r p' = some (expiryPlaceholder r)) ∧
        p'.isReady = false ∧ p'.response = p.response ∧ p'.playerId = p.playerId ∧
        (r = Role.truth → p'.dare = p.dare) ∧ (r = Role.dare → p'.truth = p.truth)) ∧
      room'.currentRole = some r ∧ room'.turnTimerUsed = room.turnTimerUsed ∧
      (r = Role.truth → room'.phase = Phase.action ∧ room'.timer = room.turnTimerUsed ∧
        (handleTimerExpiry w code room).1.timers code = true) ∧
      (r = Role.dare → room'.phase = Phase.reveal ∧ room'.timer = 0 ∧
        (handleTimerExpiry w code room).1.timers code = false) := by
  have hplayers : ∀ (k : Nat) (p : Player), room.players[k]? = some p →
      ∃ p', (clearReady (room.players.map backfillPrompt))[k]? = some p' ∧
        (falsy (slot r p) = false → slot r p' = slot r p) ∧
        (falsy (slot r p) = true → slot r p' = some (expiryPlaceholder r)) ∧
        p'.isReady = false ∧ p'.response = p.response ∧ p'.playerId = p.playerId ∧
        (r = Role.truth → p'.dare = p.dare) ∧ (r = Role.dare → p'.truth = p.truth) := by
    intro k p hk
    have hp : p ∈ room.players := List.getElem?_mem hk
    have hspec := backfillPrompt_spec r p (hroles p hp)
    have hid : (backfillPrompt p).playerId = p.playerId :=
      congrArg Prod.fst (link_backfillPrompt p)
    refine ⟨{ backfillPrompt p with isReady := false }, ?_, ?_, ?_, rfl, ?_, hid, ?_, ?_⟩
    · simp [clearReady, List.getElem?_map, hk]
    · intro h
      rw [hspec.1 h]
      cases r <;> rfl
    · intro h
      have := (hspec.2 h).1
      cases r <;> exact this
    · cases hf : falsy (slot r p)
      · rw [hspec.1 hf]
      · exact (hspec.2 hf).2.2.1
    · intro hr
      cases hf : falsy (slot r p)
      · rw [hspec.1 hf]
      · exact (hspec.2 hf).2.2.2.1 hr
    · intro hr
      cases hf : falsy (slot r p)
      · rw [hspec.1 hf]
      · exact (hspec.2 hf).2.2.2.2 hr
  unfold handleTimerExpiry
  rw [hphase]
  dsimp only
  cases r with
  | truth =>
    rw [if_pos hrole]
    refine ⟨_, findOne_save_startRoomTimer _ _ _, rfl, ?_, hplayers, hrole, rfl, ?_, ?_⟩
    · simp [clearReady]
    · intro _
      exact ⟨rfl, rfl, by simp [World.startRoomTimer]⟩
    · intro h; cases h
  | dare =>
    have hne : ¬ room.currentRole = some Role.truth := by rw [hrole]; simp
    rw [if_neg hne]
    refine ⟨_, findOne_save_stopRoomTimer _ _ _, rfl, ?_, hplayers, hrole, rfl, ?_, ?_⟩
    · simp [clearReady]
    · intro h; cases h
    · intro _
      exact ⟨rfl, rfl, by simp [World.stopRoomTimer]⟩

theorem deadline_in_collecting_witness :
    ∃ room', (handleTimerExpiry World.empty "AB12" roomHalfSubmitted).1.findOne "AB12"
        = some room' ∧
      (handleTimerExpiry World.empty "AB12" roomHalfSubmitted).2 =
        [Effect.toRoom "AB12" (Msg.phase_change room' room'.phase)] ∧
      room'.players.length = roomHalfSubmitted.players.length ∧
      (∀ (k : Nat) (p : Player), roomHalfSubmitted.players[k]? = some p → ∃ p', room'.players[k]? = some p' ∧
        (falsy (slot Role.truth p) = false → slot Role.truth p' = slot Role.truth p) ∧
        (falsy (slot Role.truth p) = true →
          slot Role.truth p' = some (expiryPlaceholder Role.truth)) ∧
        p'.isReady = false ∧ p'.response = p.response ∧ p'.playerId = p.playerId ∧
        (Role.truth = Role.truth → p'.dare = p.dare) ∧
        (Role.truth = Role.dare → p'.truth = p.truth)) ∧
      room'.currentRole = some Role.truth ∧
      room'.turnTimerUsed = roomHalfSubmitted.turnTimerUsed ∧
      (Role.truth = Role.truth → room'.phase = Phase.action ∧
        room'.timer = roomHalfSubmitted.turnTimerUsed ∧
        (handleTimerExpiry World.empty "AB12" roomHalfSubmitted).1.timers "AB12" = true) ∧
      (Role.truth = Role.dare → room'.phase = Phase.reveal ∧ room'.timer = 0 ∧
        (handleTimerExpiry World.empty "AB12" roomHalfSubmitted).1.timers "AB12" = false) :=
  deadline_in_collecting World.empty "AB12" roomHalfSubmitted Role.truth (by decide)
    (by decide) (by decide)

/-! ## leave_room with participants remaining -/

theorem findIdx_append_of_first (pred : Player → Bool)
    (l1 : List Player) (x : Player) (l2 : List Player)
    (h1 : ∀ y ∈ l1, pred y = false) (hx : pred x = true) :
    (l1 ++ x :: l2).findIdx pred = l1.length := by
  induction l1 with
  | nil => simp [List.findIdx_cons, hx]
  | cons a l1 ih =>
    have ha : pred a = false := h1 a (List.mem_cons_self _ _)
    have ih' := ih (fun y hy => h1 y (List.mem_cons_of_mem _ hy))
    simp [List.findIdx_cons, ha, ih']

theorem find?_split_findIdx (pred : Player → Bool) (ps : List Player) (x : Player)
    (h : ps[ps.findIdx pred]? = some x) :
    ps.find? pred = some x ∧
    ∃ l1 l2, ps = l1 ++ x :: l2 ∧ ps.eraseIdx (ps.findIdx pred) = l1 ++ l2 ∧
      ps.findIdx pred = l1.length := by
  have hfind : ps.find? pred = some x := by rw [find?_eq_getElem?_findIdx]; exact h
  obtain ⟨l1, l2, hps, hl1, hx⟩ := find?_split pred ps x hfind
  refine ⟨hfind, l1, l2, hps, ?_, ?_⟩
  · rw [hps]; exact eraseIdx_findIdx_append pred l1 x l2 hl1 hx
  · rw [hps]; exact findIdx_append_of_first pred l1 x l2 hl1 hx

theorem persona_clearPlayer (p : Player) : persona (clearPlayer p) = persona p := rfl

theorem map_persona_promoteFirst (ps : List Player) :
    (promoteFirst ps).map persona = ps.map persona := by
  cases ps <;> rfl

theorem leave_room_eq (w : World) (s code playerId : String) (room : Room) (p first : Player)
    (tl : List Player) (hroom : w.findOne code = some room)
    (hfind : room.players.find? (fun x => x.playerId == playerId) = some p)
    (hrest : room.players.eraseIdx (room.players.findIdx fun x => x.playerId == playerId)
      = first :: tl) :
    leave_room w s code playerId =
      ((w.stopRoomTimer code).save code
          { room with hostId := if p.isHost = true then first.playerId else room.hostId,
                      phase := Phase.lobby, round := 0, timer := 0, currentRole := none,
                      players := (if p.isHost = true then promoteFirst (first :: tl)
                        else first :: tl).map clearPlayer },
        [Effect.toOthers s code (Msg.player_left_notification p.nickname p.isHost),
         Effect.toRoom code (Msg.room_updated
          { room with hostId := if p.isHost = true then first.playerId else room.hostId,
                      phase := Phase.lobby, round := 0, timer := 0, currentRole := none,
                      players := (if p.isHost = true then promoteFirst (first :: tl)
                        else first :: tl).map clearPlayer }),
         Effect.unsubscribe s code]) := by
  unfold leave_room
  rw [hroom]
  dsimp only
  rw [hfind]
  dsimp only
  rw [hrest]

/-- C9. Let `p` be the participant `leave_room` finds for `playerId` (at
position `i`) in a stored session with at least two participants, in any
phase. The handler stores a session whose participants are the former ones
without position `i`, in the same order and with the same identity, connection
and nickname; phase `lobby`, `round = 0`, `timer = 0`, `currentRole` null; every
remaining participant has `truth`, `dare`, `response` equal to the empty
string, `role` and `targetId` null and `isReady = false`. If `p` was flagged
host, the first remaining participant is flagged host, `hostId` is its
`playerId`, and that is the former second participant when `p` was first;
otherwise `hostId` and the host flags are unchanged. The timer of the code is
stopped and the others in the room receive the departure notification with the
nickname of `p` and `isNewHost` equal to the host flag of `p`. -/
theorem leave_room_remaining (w : World) (s code playerId : String) (room : Room) (p : Player)
    (i : Nat) (hroom : w.findOne code = some room) (hn : 2 ≤ room.players.length)
    (hi : i = room.players.findIdx fun x => x.playerId == playerId)
    (hp : room.players[i]? = some p) :
    ∃ room', (leave_room w s code playerId).1.findOne code = some room' ∧
      room'.players.map persona = (room.players.eraseIdx i).map persona ∧
      room'.code = room.code ∧ room'.phase = Phase.lobby ∧ room'.round = 0 ∧
      room'.timer = 0 ∧ room'.currentRole = none ∧
      (∀ q ∈ room'.players, q.truth = some "" ∧ q.dare = some "" ∧ q.response = some "" ∧
        q.role = none ∧ q.targetId = none ∧ q.isReady = false) ∧
      (p.isHost = true → ∃ first, room'.players.head? = some first ∧ first.isHost = true ∧
        room'.hostId = first.playerId ∧
        (i = 0 → room.players[1]?.map (fun q => q.playerId) = some room'.hostId) ∧
        room'.players.tail.map (fun q => q.isHost) =
          (room.players.eraseIdx i).tail.map (fun q => q.isHost)) ∧
      (p.isHost = false → room'.hostId = room.hostId ∧
        room'.players.map (fun q => q.isHost) =
          (room.players.eraseIdx i).map (fun q => q.isHost)) ∧
      (leave_room w s code playerId).1.timers code = false ∧
      (leave_room w s code playerId).2 =
        [Effect.toOthers s code (Msg.player_left_notification p.nickname p.isHost),
         Effect.toRoom code (Msg.room_updated room'),
         Effect.unsubscribe s code] := by
  subst hi
  obtain ⟨hfind, l1, l2, hps, herase, hidx⟩ :=
    find?_split_findIdx (fun x => x.playerId == playerId) room.players p hp
  have hlen : 1 ≤ (l1 ++ l2).length := by
    have := congrArg List.length hps
    simp only [List.length_append, List.length_cons] at this ⊢
    omega
  obtain ⟨first, tl, hrest⟩ : ∃ first tl, l1 ++ l2 = first :: tl := by
    cases h : l1 ++ l2 with
    | nil => rw [h] at hlen; simp at hlen
    | cons a t => exact ⟨a, t, rfl⟩
  rw [leave_room_eq w s code playerId room p first tl hroom hfind (herase.trans hrest)]
  rw [herase, hrest]
  refine ⟨_, findOne_save _ _ _, ?_, rfl, rfl, rfl, rfl, rfl, ?_, ?_, ?_, ?_, rfl⟩
  · dsimp only
    rw [map_map_of_inv persona _ persona_clearPlayer]
    split
    · exact map_persona_promoteFirst _
    · rfl
  · intro q hq
    dsimp only at hq
    rw [List.mem_map] at hq
    obtain ⟨q0, _, rfl⟩ := hq
    exact ⟨rfl, rfl, rfl, rfl, rfl, rfl⟩
  · intro hhost
    simp only [hhost, if_true, promoteFirst, List.map_cons, List.head?_cons, List.tail_cons]
    refine ⟨_, rfl, rfl, rfl, ?_, ?_⟩
    · intro h0
      have hl1 : l1 = [] := List.length_eq_zero.mp (hidx.symm.trans h0)
      subst hl1
      rw [hps]
      simp only [List.nil_append] at hrest
      simp [hrest]
    · simp [List.map_map, Function.comp_def, clearPlayer]
  · intro hhost
    simp [hhost, List.map_map, Function.comp_def, clearPlayer]
  · simp [World.save, World.stopRoomTimer]

theorem leave_room_remaining_witness :
    ∃ room', (leave_room worldThree "s1" "AB12" "p1").1.findOne "AB12" = some room' ∧
      room'.players.map persona = (roomThree.players.eraseIdx 0).map persona ∧
      room'.code = roomThree.code ∧ room'.phase = Phase.lobby ∧ room'.round = 0 ∧
      room'.timer = 0 ∧ room'.currentRole = none ∧
      (∀ q ∈ room'.players, q.truth = some "" ∧ q.dare = some "" ∧ q.response = some "" ∧
        q.role = none ∧ q.targetId = none ∧ q.isReady = false) ∧
      (true = true → ∃ first, room'.players.head? = some first ∧ first.isHost = true ∧
        room'.hostId = first.playerId ∧
        (0 = 0 → roomThree.players[1]?.map (fun q => q.playerId) = some room'.hostId) ∧
        room'.players.tail.map (fun q => q.isHost) =
          (roomThree.players.eraseIdx 0).tail.map (fun q => q.isHost)) ∧
      (true = false → room'.hostId = roomThree.hostId ∧
        room'.players.map (fun q => q.isHost) =
          (roomThree.players.eraseIdx 0).map (fun q => q.isHost)) ∧
      (leave_room worldThree "s1" "AB12" "p1").1.timers "AB12" = false ∧
      (leave_room worldThree "s1" "AB12" "p1").2 =
        [Effect.toOthers "s1" "AB12" (Msg.player_left_notification "Ann" true),
         Effect.toRoom "AB12" (Msg.room_updated room'),
         Effect.unsubscribe "s1" "AB12"] :=
  leave_room_remaining worldThree "s1" "AB12" "p1" roomThree
    { playerId := "p1", socketId := "s1", nickname := "Ann", isHost := true,
      truth := some "q3", dare := some "", targetId := some "p2", response := some "a1",
      role := some Role.truth, isReady := true }
    0 (by decide) (by decide) (by decide) (by decide)

/-! ## Last departure -/

theorem leave_room_last_eq (w : World) (s code playerId : String) (room : Room) (p : Player)
    (hroom : w.findOne code = some room) (hlen : room.players.length = 1)
    (hfind : room.players.find? (fun x => x.playerId == playerId) = some p) :
    leave_room w s code playerId =
      ((w.deleteOne code).stopRoomTimer code, [Effect.unsubscribe s code]) := by
  obtain ⟨l1, l2, hps, hl1, hx⟩ := find?_split _ _ _ hfind
  have herase := eraseIdx_findIdx_append (fun x => x.playerId == playerId) l1 p l2 hl1 hx
  rw [← hps] at herase
  have hnil : l1 ++ l2 = [] := by
    have := congrArg List.length hps
    rw [hlen] at this
    simp only [List.length_append, List.length_cons] at this
    apply List.length_eq_zero.mp
    simp only [List.length_append]
    omega
  unfold leave_room
  rw [hroom]
  dsimp only
  rw [hfind]
  dsimp only
  rw [herase, hnil]

/-- C10. When the only participant of a stored session leaves, the handler
deletes the record (a later lookup by the code finds nothing) and stops the
timer of the code in the same step, so that a later firing for the code does
nothing; it emits nothing to the room (only the unsubscription of the caller).
And in no reachable server state is a session with zero participants stored,
neither before nor after the departure. -/
theorem leave_room_last (w : World) (s code playerId : String) (room : Room) (p : Player)
    (hroom : w.findOne code = some room) (hlen : room.players.length = 1)
    (hfind : room.players.find? (fun x => x.playerId == playerId) = some p) :
    (leave_room w s code playerId).1.findOne code = none ∧
    (leave_room w s code playerId).1.timers code = false ∧
    timerTick (leave_room w s code playerId).1 code = ((leave_room w s code playerId).1, []) ∧
    (leave_room w s code playerId).2 = [Effect.unsubscribe s code] ∧
    (∀ e ∈ (leave_room w s code playerId).2, isBroadcast e = false) ∧
    (Reachable w → ∀ w', w' = w ∨ w' = (leave_room w s code playerId).1 →
      ∀ c r, w'.findOne c = some r → r.players ≠ []) := by
  rw [leave_room_last_eq w s code playerId room p hroom hlen hfind]
  have htimers : ((w.deleteOne code).stopRoomTimer code).timers code = false := by
    simp [World.stopRoomTimer]
  refine ⟨?_, htimers, ?_, rfl, ?_, ?_⟩
  · simp [World.findOne, World.deleteOne, World.stopRoomTimer]
  · unfold timerTick
    rw [htimers]
    simp
  · intro e he
    simp only [List.mem_singleton] at he
    subst he
    rfl
  · intro hreach w' hw' c r hr
    have hok : StoreOK w' := by
      rcases hw' with h | h
      · rw [h]; exact StoreOK_of_reachable hreach
      · rw [h]
        exact StoreOK_stopRoomTimer (StoreOK_deleteOne (StoreOK_of_reachable hreach) code) code
    exact (hok c r hr).players_ne_nil

theorem leave_room_last_witness :
    (leave_room (run World.empty scenarioAlone) "s1" "AB12" "p1").1.findOne "AB12" = none ∧
    (leave_room (run World.empty scenarioAlone) "s1" "AB12" "p1").1.timers "AB12" = false ∧
    timerTick (leave_room (run World.empty scenarioAlone) "s1" "AB12" "p1").1 "AB12" =
      ((leave_room (run World.empty scenarioAlone) "s1" "AB12" "p1").1, []) ∧
    (leave_room (run World.empty scenarioAlone) "s1" "AB12" "p1").2 =
      [Effect.unsubscribe "s1" "AB12"] ∧
    (∀ e ∈ (leave_room (run World.empty scenarioAlone) "s1" "AB12" "p1").2,
      isBroadcast e = false) ∧
    (Reachable (run World.empty scenarioAlone) → ∀ w',
      w' = run World.empty scenarioAlone ∨
        w' = (leave_room (run World.empty scenarioAlone) "s1" "AB12" "p1").1 →
      ∀ c r, w'.findOne c = some r → r.players ≠ []) :=
  leave_room_last (run World.empty scenarioAlone) "s1" "AB12" "p1" roomAlone
    { playerId := "p1", socketId := "s1", nickname := "Ann", isHost := true,
      truth := none, dare := none, targetId := none, response := none,
      role := none, isReady := false }
    (by decide) (by decide) (by decide)

/-! ## join_room and next_round -/

/-- C11. `join_room` on a stored session stores a session with the same
session-level fields. If a participant has the given `playerId`, the
participants are the same in number and order and, position by position,
identical, except that the first participant with that `playerId` has the
connection of the caller as `socketId`. Otherwise the participants are the
former ones followed by exactly one new record with the given `playerId` and
nickname, `isHost = false`, no role, no target and no prompt or response. -/
theorem join_room_append_or_reconnect (w : World) (s code nickname playerId : String)
    (room : Room) (hroom : w.findOne code = some room) :
    ∃ room', (join_room w s code nickname playerId).1.findOne code = some room' ∧
      sessionFields room' = sessionFields room ∧
      (∀ p, room.players.find? (fun q => q.playerId == playerId) = some p →
        room'.players.length = room.players.length ∧
        ∀ k : Nat, room'.players[k]? =
          if k = room.players.findIdx (fun q => q.playerId == playerId)
          then room.players[k]?.map fun q => { q with socketId := s }
          else room.players[k]?) ∧
      (room.players.find? (fun q => q.playerId == playerId) = none →
        room'.players = room.players ++ [newcomer s nickname playerId]) := by
  unfold join_room
  rw [hroom]
  dsimp only
  refine ⟨_, findOne_save _ _ _, rfl, ?_, ?_⟩
  · intro p hp
    dsimp only
    rw [hp]
    dsimp only
    exact ⟨length_modifyFirst _ _ _, fun k => getElem?_modifyFirst _ _ _ k⟩
  · intro hnone
    dsimp only
    rw [hnone]
    rfl

theorem join_room_append_or_reconnect_witness :
    ∃ room', (join_room (run World.empty scenarioStarted) "s9" "AB12" "Bobby" "p2").1.findOne
        "AB12" = some room' ∧
      sessionFields room' = sessionFields roomStarted ∧
      (∀ p, roomStarted.players.find? (fun q => q.playerId == "p2") = some p →
        room'.players.length = roomStarted.players.length ∧
        ∀ k : Nat, room'.players[k]? =
          if k = roomStarted.players.findIdx (fun q => q.playerId == "p2")
          then roomStarted.players[k]?.map fun q => { q with socketId := "s9" }
          else roomStarted.players[k]?) ∧
      (roomStarted.players.find? (fun q => q.playerId == "p2") = none →
        room'.players = roomStarted.players ++ [newcomer "s9" "Bobby" "p2"]) :=
  join_room_append_or_reconnect (run World.empty scenarioStarted) "s9" "AB12" "Bobby" "p2"
    roomStarted (by decide)

/-- C12. `next_round` issued by the host on a stored session in phase `reveal`
whose `currentRole` is the role `r` stores a session with `round` increased by
one, `currentRole` the complement of `r`, every participant with that role,
with `truth`, `dare` and `response` equal to the empty string and
`isReady = false`, phase `input`, `timer` equal to the unchanged
`turnTimerUsed`; the timer of the code is armed and the room receives
`game_started`. -/
theorem next_round_effect (w : World) (code playerId : String) (room : Room) (r : Role)
    (hroom : w.findOne code = some room) (hhost : room.hostId = playerId)
    (_hphase : room.phase = Phase.reveal) (hrole : room.currentRole = some r) :
    ∃ room', (next_round w code playerId).1.findOne code = some room' ∧
      room'.round = room.round + 1 ∧ room'.currentRole = some r.flip ∧
      room'.players.length = room.players.length ∧
      (∀ q ∈ room'.players, q.role = some r.flip ∧ q.truth = some "" ∧ q.dare = some "" ∧
        q.response = some "" ∧ q.isReady = false) ∧
      room'.phase = Phase.input ∧ room'.timer = room.turnTimerUsed ∧
      room'.turnTimerUsed = room.turnTimerUsed ∧ room'.hostId = room.hostId ∧
      (next_round w code playerId).1.timers code = true ∧
      (next_round w code playerId).2 = [Effect.toRoom code (Msg.game_started room')] := by
  subst hhost
  unfold next_round
  rw [hroom]
  simp only [ne_eq, not_true_eq_false, if_false]
  have hflip : (if room.currentRole = some Role.truth then Role.dare else Role.truth)
      = r.flip := by
    rw [hrole]
    cases r <;> simp [Role.flip]
  rw [hflip]
  refine ⟨_, findOne_save_startRoomTimer _ _ _, rfl, rfl, ?_, ?_, rfl, rfl, rfl, rfl, ?_, rfl⟩
  · simp
  · intro q hq
    dsimp only at hq
    rw [List.mem_map] at hq
    obtain ⟨q0, _, rfl⟩ := hq
    exact ⟨rfl, rfl, rfl, rfl, rfl⟩
  · simp [World.startRoomTimer]

theorem next_round_effect_witness :
    ∃ room', (next_round (World.empty.save "AB12" roomRevealed) "AB12" "p1").1.findOne "AB12"
        = some room' ∧
      room'.round = roomRevealed.round + 1 ∧ room'.currentRole = some Role.dare.flip ∧
      room'.players.length = roomRevealed.players.length ∧
      (∀ q ∈ room'.players, q.role = some Role.dare.flip ∧ q.truth = some "" ∧
        q.dare = some "" ∧ q.response = some "" ∧ q.isReady = false) ∧
      room'.phase = Phase.input ∧ room'.timer = roomRevealed.turnTimerUsed ∧
      room'.turnTimerUsed = roomRevealed.turnTimerUsed ∧ room'.hostId = roomRevealed.hostId ∧
      (next_round (World.empty.save "AB12" roomRevealed) "AB12" "p1").1.timers "AB12" = true ∧
      (next_round (World.empty.save "AB12" roomRevealed) "AB12" "p1").2 =
        [Effect.toRoom "AB12" (Msg.game_started room')] :=
  next_round_effect (World.empty.save "AB12" roomRevealed) "AB12" "p1" roomRevealed Role.dare
    (by decide) (by decide) (by decide) (by decide)

/-! ## next_round and targets -/

/-- C13 fails on the code. In `scenarioNextRound` the session is in `reveal`
with three participants when the host issues `next_round`; afterwards the
session is in `input` for round 2, but the `targetId`s are those of the first
round: the second participant still names the first (the claim has the third)
and the third names nobody (the claim has the first). A `start_game` on the
same session does assign the rotation. -/
theorem next_round_keeps_old_targets :
    (run World.empty scenarioNextRound.dropLast).findOne "AB12" = some roomBeforeNextRound ∧
    roomBeforeNextRound.phase = Phase.reveal ∧ roomBeforeNextRound.hostId = "p1" ∧
    ((run World.empty scenarioNextRound).findOne "AB12").map (fun r => (r.phase, r.round))
      = some (Phase.input, 2) ∧
    ((run World.empty scenarioNextRound).findOne "AB12").map
        (fun r => r.players.map fun q => (q.playerId, q.targetId))
      = some [("p1", some "p2"), ("p2", some "p1"), ("p3", none)] ∧
    ((start_game (run World.empty scenarioNextRound.dropLast) "s1" "AB12" 30 "p1" true).1.findOne
        "AB12").map (fun r => r.players.map fun q => (q.playerId, q.targetId))
      = some [("p1", some "p2"), ("p2", some "p3"), ("p3", some "p1")] := by
  decide

/-! ## submit_response -/

theorem submit_response_eq (w : World) (code response playerId : String) (room : Room)
    (p : Player) (hroom : w.findOne code = some room)
    (hfind : room.players.find? (fun x => x.playerId == playerId) = some p) :
    submit_response w code response playerId =
      let room1 := responseWritten room response playerId
      let w1 := w.save code room1
      let e1 := Effect.toRoom code (Msg.room_updated room1)
      if (room1.players.all fun x => x.isReady) = true then
        let room2 := { room1 with phase := Phase.reveal, timer := 0,
                                  players := clearReady room1.players }
        ((w1.save code room2).stopRoomTimer code,
          [e1, Effect.toRoom code (Msg.phase_change room2 Phase.reveal)])
      else (w1, [e1]) := by
  unfold submit_response
  rw [hroom]
  dsimp only
  rw [hfind]
  rfl

/-- C14. Let `p` be the participant `submit_response` finds for `playerId` (at
position `i`) in a stored session in phase `action`. The room the handler
saves and broadcasts as `room_updated` has, at position `i`, `p` with the text
(or, for an empty text, the placeholder) as `response` and `isReady = true`,
and every other position unchanged. If every participant of that room is
ready, the stored session is in phase `reveal` with `timer = 0`, the same
responses and the timer of the code stopped, and `phase_change` is broadcast;
otherwise the stored session is that room, still in phase `action`, and the
timers are as they were. -/
theorem submit_response_effect (w : World) (code response playerId : String) (room : Room)
    (p : Player) (i : Nat) (hroom : w.findOne code = some room)
    (hphase : room.phase = Phase.action)
    (hi : i = room.players.findIdx fun x => x.playerId == playerId)
    (hp : room.players[i]? = some p) :
    ∃ room1 room',
      (submit_response w code response playerId).2.head? =
        some (Effect.toRoom code (Msg.room_updated room1)) ∧
      (submit_response w code response playerId).1.findOne code = some room' ∧
      room1.players[i]? = some { p with
        response := some (if response = "" then "(Empty Response)" else response),
        isReady := true } ∧
      (∀ k : Nat, k ≠ i → room1.players[k]? = room.players[k]?) ∧
      (room'.players.map fun x => x.response) = (room1.players.map fun x => x.response) ∧
      ((room1.players.all fun x => x.isReady) = true →
        room'.phase = Phase.reveal ∧ room'.timer = 0 ∧
        (submit_response w code response playerId).1.timers code = false ∧
        (submit_response w code response playerId).2 =
          [Effect.toRoom code (Msg.room_updated room1),
           Effect.toRoom code (Msg.phase_change room' Phase.reveal)]) ∧
      ((room1.players.all fun x => x.isReady) = false →
        room' = room1 ∧ room'.phase = Phase.action ∧
        (submit_response w code response playerId).1.timers = w.timers ∧
        (submit_response w code response playerId).2 =
          [Effect.toRoom code (Msg.room_updated room1)]) := by
  have hfind : room.players.find? (fun x => x.playerId == playerId) = some p := by
    rw [find?_eq_getElem?_findIdx, ← hi, hp]
  have heq := submit_response_eq w code response playerId room p hroom hfind
  dsimp only at heq
  have hget : ∀ k : Nat, (responseWritten room response playerId).players[k]? =
      if k = i then room.players[k]?.map (fun q =>
        { q with response := some (orElse response "(Empty Response)"), isReady := true })
      else room.players[k]? := by
    intro k
    unfold responseWritten
    dsimp only
    rw [getElem?_modifyFirst, ← hi]
  have hph1 : (responseWritten room response playerId).phase = Phase.action := hphase
  refine ⟨responseWritten room response playerId, ?_⟩
  generalize responseWritten room response playerId = room1 at heq hget hph1
  have ha : room1.players[i]? = some { p with
      response := some (if response = "" then "(Empty Response)" else response),
      isReady := true } := by
    rw [hget i, if_pos rfl, hp]
    simp [orElse]
  have hothers : ∀ k : Nat, k ≠ i → room1.players[k]? = room.players[k]? := by
    intro k hk
    rw [hget k, if_neg hk]
  rw [heq]
  by_cases hall : (room1.players.all fun x => x.isReady) = true
  · rw [if_pos hall]
    refine ⟨_, rfl, findOne_save_stopRoomTimer _ _ _, ha, hothers, ?_, ?_, ?_⟩
    · exact map_map_of_inv (fun x : Player => x.response)
        (fun q => { q with isReady := false }) (fun _ => rfl) _
    · intro _
      exact ⟨rfl, rfl, by simp [World.stopRoomTimer], rfl⟩
    · intro h
      rw [hall] at h
      exact absurd h (by decide)
  · rw [if_neg hall]
    refine ⟨_, rfl, findOne_save _ _ _, ha, hothers, rfl, ?_, ?_⟩
    · intro h
      exact absurd h hall
    · intro _
      exact ⟨rfl, hph1, rfl, rfl⟩

theorem submit_response_effect_witness :
    ∃ room1 room',
      (submit_response worldThree "AB12" "blue" "p2").2.head? =
        some (Effect.toRoom "AB12" (Msg.room_updated room1)) ∧
      (submit_response worldThree "AB12" "blue" "p2").1.findOne "AB12" = some room' ∧
      room1.players[1]? = some { responderBob with
        response := some (if "blue" = "" then "(Empty Response)" else "blue"),
        isReady := true } ∧
      (∀ k : Nat, k ≠ 1 → room1.players[k]? = roomThree.players[k]?) ∧
      (room'.players.map fun x => x.response) = (room1.players.map fun x => x.response) ∧
      ((room1.players.all fun x => x.isReady) = true →
        room'.phase = Phase.reveal ∧ room'.timer = 0 ∧
        (submit_response worldThree "AB12" "blue" "p2").1.timers "AB12" = false ∧
        (submit_response worldThree "AB12" "blue" "p2").2 =
          [Effect.toRoom "AB12" (Msg.room_updated room1),
           Effect.toRoom "AB12" (Msg.phase_change room' Phase.reveal)]) ∧
      ((room1.players.all fun x => x.isReady) = false →
        room' = room1 ∧ room'.phase = Phase.action ∧
        (submit_response worldThree "AB12" "blue" "p2").1.timers = worldThree.timers ∧
        (submit_response worldThree "AB12" "blue" "p2").2 =
          [Effect.toRoom "AB12" (Msg.room_updated room1)]) :=
  submit_response_effect worldThree "AB12" "blue" "p2" roomThree responderBob 1
    (by decide) (by decide) (by decide) (by decide)

/-! ## Deadline while responding, stale deadlines, unauthorised requests -/

theorem backfillResponse_spec (p : Player) :
    (falsy p.response = false → backfillResponse p = p) ∧
    (falsy p.response = true →
      backfillResponse p = { p with response := some "(No response provided)" }) := by
  unfold backfillResponse
  constructor
  · intro h
    simp [h]
  · intro h
    simp [h]

theorem falsy_response_backfillResponse (p : Player) :
    falsy (backfillResponse p).response = false := by
  cases h : falsy p.response
  · rw [(backfillResponse_spec p).1 h]; exact h
  · rw [(backfillResponse_spec p).2 h]; rfl

/-- C15. For a session in phase `action`, `handleTimerExpiry` stores a session
with the same number of participants in which, position by position, a
participant with a non-empty response is unchanged and one with a missing or
empty response differs only in having the placeholder as response; afterwards
every response is non-empty, the phase is `reveal`, `timer = 0`, the timer of
the code is stopped and `phase_change` is broadcast. -/
theorem deadline_in_responding (w : World) (code : String) (room : Room)
    (hphase : room.phase = Phase.action) :
    ∃ room', (handleTimerExpiry w code room).1.findOne code = some room' ∧
      (handleTimerExpiry w code room).2 =
        [Effect.toRoom code (Msg.phase_change room' Phase.reveal)] ∧
      room'.players.length = room.players.length ∧
      (∀ (k : Nat) (p : Player), room.players[k]? = some p →
        (falsy p.response = false → room'.players[k]? = some p) ∧
        (falsy p.response = true → room'.players[k]? =
          some { p with response := some "(No response provided)" })) ∧
      (∀ q ∈ room'.players, falsy q.response = false) ∧
      room'.phase = Phase.reveal ∧ room'.timer = 0 ∧
      room'.currentRole = room.currentRole ∧ room'.turnTimerUsed = room.turnTimerUsed ∧
      (handleTimerExpiry w code room).1.timers code = false := by
  unfold handleTimerExpiry
  rw [hphase]
  dsimp only
  refine ⟨_, findOne_save_stopRoomTimer _ _ _, rfl, ?_, ?_, ?_, rfl, rfl, rfl, rfl, ?_⟩
  · simp
  · intro k p hk
    dsimp only
    rw [List.getElem?_map, hk, Option.map_some']
    constructor
    · intro h
      rw [(backfillResponse_spec p).1 h]
    · intro h
      rw [(backfillResponse_spec p).2 h]
  · intro q hq
    dsimp only at hq
    rw [List.mem_map] at hq
    obtain ⟨q0, _, rfl⟩ := hq
    exact falsy_response_backfillResponse q0
  · simp [World.stopRoomTimer]

theorem deadline_in_responding_witness :
    ∃ room', (handleTimerExpiry worldThree "AB12" roomThree).1.findOne "AB12" = some room' ∧
      (handleTimerExpiry worldThree "AB12" roomThree).2 =
        [Effect.toRoom "AB12" (Msg.phase_change room' Phase.reveal)] ∧
      room'.players.length = roomThree.players.length ∧
      (∀ (k : Nat) (p : Player), roomThree.players[k]? = some p →
        (falsy p.response = false → room'.players[k]? = some p) ∧
        (falsy p.response = true → room'.players[k]? =
          some { p with response := some "(No response provided)" })) ∧
      (∀ q ∈ room'.players, falsy q.response = false) ∧
      room'.phase = Phase.reveal ∧ room'.timer = 0 ∧
      room'.currentRole = roomThree.currentRole ∧
      room'.turnTimerUsed = roomThree.turnTimerUsed ∧
      (handleTimerExpiry worldThree "AB12" roomThree).1.timers "AB12" = false :=
  deadline_in_responding worldThree "AB12" roomThree (by decide)

/-- C19. For a session whose phase is `lobby` or `reveal`, `handleTimerExpiry`
returns the server state it was given, store and timers alike, and emits
nothing. -/
theorem stale_deadline_noop (w : World) (code : String) (room : Room)
    (hphase : room.phase = Phase.lobby ∨ room.phase = Phase.reveal) :
    handleTimerExpiry w code room = (w, []) := by
  unfold handleTimerExpiry
  rcases hphase with h | h <;> rw [h]

theorem stale_deadline_noop_witness :
    handleTimerExpiry (World.empty.save "AB12" roomRevealed) "AB12" roomRevealed =
      (World.empty.save "AB12" roomRevealed, []) :=
  stale_deadline_noop (World.empty.save "AB12" roomRevealed) "AB12" roomRevealed
    (Or.inr (by decide))

/-- C18. On a stored session, `start_game` and `next_round` with a `playerId`
that is not the `hostId`, and `submit_input`, `submit_response` and
`leave_room` with a `playerId` that no participant has, return the server
state they were given, store and timers alike, and emit nothing at all. -/
theorem unauthorised_requests_change_nothing (w : World) (code playerId : String)
    (room : Room) (hroom : w.findOne code = some room) :
    (room.hostId ≠ playerId →
      (∀ s t coin, start_game w s code t playerId coin = (w, [])) ∧
      next_round w code playerId = (w, [])) ∧
    ((∀ q ∈ room.players, q.playerId ≠ playerId) →
      (∀ content, submit_input w code content playerId = (w, [])) ∧
      (∀ response, submit_response w code response playerId = (w, [])) ∧
      (∀ s, leave_room w s code playerId = (w, []))) := by
  constructor
  · intro hne
    constructor
    · intro s t coin
      unfold start_game
      rw [hroom]
      simp only [ne_eq, hne, not_false_eq_true, if_true]
    · unfold next_round
      rw [hroom]
      simp only [ne_eq, hne, not_false_eq_true, if_true]
  · intro hnone
    have hfind : room.players.find? (fun q => q.playerId == playerId) = none := by
      rw [List.find?_eq_none]
      intro q hq
      simpa using hnone q hq
    refine ⟨?_, ?_, ?_⟩
    · intro content
      unfold submit_input
      rw [hroom]
      dsimp only
      rw [hfind]
    · intro response
      unfold submit_response
      rw [hroom]
      dsimp only
      rw [hfind]
    · intro s
      unfold leave_room
      rw [hroom]
      dsimp only
      rw [hfind]

theorem unauthorised_requests_change_nothing_witness :
    (roomStarted.hostId ≠ "p9" →
      (∀ s t coin, start_game (run World.empty scenarioStarted) s "AB12" t "p9" coin =
        (run World.empty scenarioStarted, [])) ∧
      next_round (run World.empty scenarioStarted) "AB12" "p9" =
        (run World.empty scenarioStarted, [])) ∧
    ((∀ q ∈ roomStarted.players, q.playerId ≠ "p9") →
      (∀ content, submit_input (run World.empty scenarioStarted) "AB12" content "p9" =
        (run World.empty scenarioStarted, [])) ∧
      (∀ response, submit_response (run World.empty scenarioStarted) "AB12" response "p9" =
        (run World.empty scenarioStarted, [])) ∧
      (∀ s, leave_room (run World.empty scenarioStarted) s "AB12" "p9" =
        (run World.empty scenarioStarted, []))) :=
  unauthorised_requests_change_nothing (run World.empty scenarioStarted) "AB12" "p9"
    roomStarted (by decide)

/-! ## Phase guards -/

/-- C16, as stated, fails. (a) In `scenarioOneSubmitted` the stored session is
`roomHalfSubmitted`, in phase `input`; a second `start_game` by the host is not
rejected: the stored session afterwards is another one (the submitted
question and the ready flag are gone, `turnTimerUsed` is 45) and `game_started`
is broadcast to the room. (b) In `scenarioAlone` the session is in phase
`lobby`; `submit_input` by its participant moves it to phase `reveal` and
broadcasts to the room. -/
theorem phase_guard_counterexample :
    (run World.empty scenarioOneSubmitted).findOne "AB12" = some roomHalfSubmitted ∧
    roomHalfSubmitted.phase = Phase.input ∧ roomHalfSubmitted.hostId = "p1" ∧
    (start_game (run World.empty scenarioOneSubmitted) "s1" "AB12" 45 "p1" true).1.findOne "AB12"
      ≠ some roomHalfSubmitted ∧
    ((start_game (run World.empty scenarioOneSubmitted) "s1" "AB12" 45 "p1" true).1.findOne
        "AB12").map (fun r => (r.turnTimerUsed, r.players.map fun q => (q.truth, q.isReady)))
      = some (45, [(some "", false), (some "", false)]) ∧
    (start_game (run World.empty scenarioOneSubmitted) "s1" "AB12" 45 "p1" true).2.any
      isBroadcast = true ∧
    (run World.empty scenarioAlone).findOne "AB12" = some roomAlone ∧
    roomAlone.phase = Phase.lobby ∧
    ((submit_input (run World.empty scenarioAlone) "AB12" "x" "p1").1.findOne "AB12").map
      (fun r => r.phase) = some Phase.reveal ∧
    (submit_input (run World.empty scenarioAlone) "AB12" "x" "p1").2.any isBroadcast = true := by
  decide

/-- C16, amended. The handlers do not look at the phase. On a stored session
in any phase: `start_game` by the host with at least two participants stores a
freshly started round and broadcasts `game_started`; `submit_input` by a
participant broadcasts `room_updated` and, when all participants are then
ready, stores phase `action` (if `currentRole` is truth) or `reveal`
(otherwise), else it stores the updated room with the phase as it was;
`submit_response` by a participant broadcasts `room_updated` and, when all
are then ready, stores phase `reveal`, else the updated room with the phase as
it was; `next_round` by the host stores phase `input` with `round + 1` and
broadcasts `game_started`. -/
theorem phase_not_checked (w : World) (code : String) (room : Room)
    (hroom : w.findOne code = some room) :
    (∀ s t coin, 2 ≤ room.players.length →
      start_game w s code t room.hostId coin =
        ((w.save code (startedRoom room t coin)).startRoomTimer code,
          [Effect.toRoom code (Msg.game_started (startedRoom room t coin))]) ∧
      (startedRoom room t coin).phase = Phase.input) ∧
    (∀ content playerId p,
      room.players.find? (fun x => x.playerId == playerId) = some p →
      ∃ room1 room',
        (submit_input w code content playerId).2.head? =
          some (Effect.toRoom code (Msg.room_updated room1)) ∧
        (submit_input w code content playerId).1.findOne code = some room' ∧
        room1.phase = room.phase ∧
        ((room1.players.all fun x => x.isReady) = true →
          room'.phase = if room.currentRole = some Role.truth then Phase.action
            else Phase.reveal) ∧
        ((room1.players.all fun x => x.isReady) = false → room' = room1)) ∧
    (∀ response playerId p,
      room.players.find? (fun x => x.playerId == playerId) = some p →
      ∃ room1 room',
        (submit_response w code response playerId).2.head? =
          some (Effect.toRoom code (Msg.room_updated room1)) ∧
        (submit_response w code response playerId).1.findOne code = some room' ∧
        room1.phase = room.phase ∧
        ((room1.players.all fun x => x.isReady) = true → room'.phase = Phase.reveal) ∧
        ((room1.players.all fun x => x.isReady) = false → room' = room1)) ∧
    (∃ room', (next_round w code room.hostId).1.findOne code = some room' ∧
      room'.phase = Phase.input ∧ room'.round = room.round + 1 ∧
      (next_round w code room.hostId).2 = [Effect.toRoom code (Msg.game_started room')]) := by
  refine ⟨?_, ?_, ?_, ?_⟩
  · intro s t coin hn
    exact ⟨start_game_success w s code t room.hostId coin room hroom rfl hn, rfl⟩
  · intro content playerId p hfind
    have heq := submit_input_eq w code content playerId room p hroom hfind
    dsimp only at heq
    have hph : (inputWritten room content playerId p).phase = room.phase := rfl
    have hrole : (inputWritten room content playerId p).currentRole = room.currentRole := rfl
    refine ⟨inputWritten room content playerId p, ?_⟩
    generalize inputWritten room content playerId p = room1 at heq hph hrole
    rw [heq]
    by_cases hall : (room1.players.all fun x => x.isReady) = true
    · rw [if_pos hall]
      by_cases htruth : room1.currentRole = some Role.truth
      · rw [if_pos htruth]
        refine ⟨_, rfl, findOne_save_startRoomTimer _ _ _, hph, ?_, ?_⟩
        · intro _
          rw [← hrole, if_pos htruth]
        · intro h
          rw [hall] at h
          exact absurd h (by decide)
      · rw [if_neg htruth]
        refine ⟨_, rfl, findOne_save_stopRoomTimer _ _ _, hph, ?_, ?_⟩
        · intro _
          rw [← hrole, if_neg htruth]
        · intro h
          rw [hall] at h
          exact absurd h (by decide)
    · rw [if_neg hall]
      exact ⟨_, rfl, findOne_save _ _ _, hph, fun h => absurd h hall, fun _ => rfl⟩
  · intro response playerId p hfind
    have heq := submit_response_eq w code response playerId room p hroom hfind
    dsimp only at heq
    have hph : (responseWritten room response playerId).phase = room.phase := rfl
    refine ⟨responseWritten room response playerId, ?_⟩
    generalize responseWritten room response playerId = room1 at heq hph
    rw [heq]
    by_cases hall : (room1.players.all fun x => x.isReady) = true
    · rw [if_pos hall]
      refine ⟨_, rfl, findOne_save_stopRoomTimer _ _ _, hph, fun _ => rfl, ?_⟩
      intro h
      rw [hall] at h
      exact absurd h (by decide)
    · rw [if_neg hall]
      exact ⟨_, rfl, findOne_save _ _ _, hph, fun h => absurd h hall, fun _ => rfl⟩
  · unfold next_round
    rw [hroom]
    simp only [ne_eq, not_true_eq_false, if_false]
    exact ⟨_, findOne_save_startRoomTimer _ _ _, rfl, rfl, rfl⟩

theorem phase_not_checked_witness :
    (run World.empty scenarioOneSubmitted).findOne "AB12" = some roomHalfSubmitted ∧
    ∃ room', (next_round (run World.empty scenarioOneSubmitted) "AB12"
        roomHalfSubmitted.hostId).1.findOne "AB12" = some room' ∧
      room'.phase = Phase.input ∧ room'.round = roomHalfSubmitted.round + 1 ∧
      (next_round (run World.empty scenarioOneSubmitted) "AB12" roomHalfSubmitted.hostId).2 =
        [Effect.toRoom "AB12" (Msg.game_started room')] :=
  ⟨by decide,
    (phase_not_checked (run World.empty scenarioOneSubmitted) "AB12" roomHalfSubmitted
      (by decide)).2.2.2⟩

/-! ## Timer value while idle -/

theorem TimerOK_of_eq {r r' : Room} (h : TimerOK r) (hp : r'.phase = r.phase)
    (ht : r'.timer = r.timer) : TimerOK r' :=
  ⟨fun hph => ht.trans (h.reveal (hp ▸ hph)), fun hph => ht ▸ h.lobby (hp ▸ hph)⟩

theorem TimerOK_of_timed {r : Room} (hp : r.phase = Phase.input ∨ r.phase = Phase.action) :
    TimerOK r := by
  constructor
  · intro h
    rcases hp with hp | hp <;> rw [hp] at h <;> cases h
  · intro h
    rcases hp with hp | hp <;> rw [hp] at h <;> cases h

theorem TimerOK_of_zero {r : Room} (ht : r.timer = 0) : TimerOK r :=
  ⟨fun _ => ht, fun _ => Or.inl ht⟩

theorem TimerStore_empty : TimerStore World.empty := by
  intro code room h
  simp [World.empty] at h

theorem TimerStore_save {w : World} (h : TimerStore w) (code : String) {room : Room}
    (hr : TimerOK room) : TimerStore (w.save code room) := by
  intro c r hc
  simp only [World.save, Function.update_apply] at hc
  split at hc
  · cases hc; exact hr
  · exact h c r hc

theorem TimerStore_deleteOne {w : World} (h : TimerStore w) (code : String) :
    TimerStore (w.deleteOne code) := by
  intro c r hc
  simp only [World.deleteOne, Function.update_apply] at hc
  split at hc
  · cases hc
  · exact h c r hc

theorem TimerStore_startRoomTimer {w : World} (h : TimerStore w) (code : String) :
    TimerStore (w.startRoomTimer code) := h

theorem TimerStore_stopRoomTimer {w : World} (h : TimerStore w) (code : String) :
    TimerStore (w.stopRoomTimer code) := h

theorem TimerStore_handleTimerExpiry {w : World} (h : TimerStore w) (code : String)
    (room : Room) : TimerStore (handleTimerExpiry w code room).1 := by
  unfold handleTimerExpiry
  split
  · dsimp only
    split
    · exact TimerStore_startRoomTimer
        (TimerStore_save h code (TimerOK_of_timed (Or.inr rfl))) code
    · exact TimerStore_stopRoomTimer (TimerStore_save h code (TimerOK_of_zero rfl)) code
  · exact TimerStore_stopRoomTimer (TimerStore_save h code (TimerOK_of_zero rfl)) code
  · exact h

theorem TimerStore_timerTick {w : World} (h : TimerStore w) (code : String) :
    TimerStore (timerTick w code).1 := by
  unfold timerTick
  split
  · split
    · exact TimerStore_stopRoomTimer h code
    · rename_i room hroom
      have hr : TimerOK room := h code room hroom
      split
      · rename_i hpos
        dsimp only
        split
        · rename_i hmod
          refine TimerStore_save h code ?_
          constructor
          · intro hph
            have := hr.reveal hph
            omega
          · intro hph
            rcases hr.lobby hph with h0 | h60
            · omega
            · rw [h60] at hmod
              exact absurd hmod (by decide)
        · exact h
      · exact TimerStore_handleTimerExpiry (TimerStore_stopRoomTimer h code) code room
  · exact h

theorem TimerStore_create_room {w : World} (h : TimerStore w) (s c n p : String) (d : Bool) :
    TimerStore (create_room w s c n p d).1 := by
  unfold create_room
  split
  · exact h
  · split
    · exact h
    · exact TimerStore_save h c ⟨fun hph => (by cases hph), fun _ => Or.inr rfl⟩

theorem TimerStore_join_room {w : World} (h : TimerStore w) (s c n p : String) :
    TimerStore (join_room w s c n p).1 := by
  unfold join_room
  split
  · exact h
  · rename_i room hroom
    exact TimerStore_save h c (TimerOK_of_eq (h c room hroom) rfl rfl)

theorem TimerStore_start_game {w : World} (h : TimerStore w) (s c : String) (t : Int)
    (p : String) (coin : Bool) : TimerStore (start_game w s c t p coin).1 := by
  unfold start_game
  split
  · exact h
  · split
    · exact h
    · dsimp only
      split
      · exact h
      · exact TimerStore_startRoomTimer
          (TimerStore_save h c (TimerOK_of_timed (Or.inl rfl))) c

theorem TimerStore_submit_input {w : World} (h : TimerStore w) (c t p : String) :
    TimerStore (submit_input w c t p).1 := by
  unfold submit_input
  split
  · exact h
  · rename_i room hroom
    have hr : TimerOK room := h c room hroom
    split
    · exact h
    · dsimp only
      split
      · split
        · refine TimerStore_startRoomTimer (TimerStore_save (TimerStore_save h c ?_) c ?_) c
          · exact TimerOK_of_eq hr rfl rfl
          · exact TimerOK_of_timed (Or.inr rfl)
        · refine TimerStore_stopRoomTimer (TimerStore_save (TimerStore_save h c ?_) c ?_) c
          · exact TimerOK_of_eq hr rfl rfl
          · exact TimerOK_of_zero rfl
      · exact TimerStore_save h c (TimerOK_of_eq hr rfl rfl)

theorem TimerStore_submit_response {w : World} (h : TimerStore w) (c t p : String) :
    TimerStore (submit_response w c t p).1 := by
  unfold submit_response
  split
  · exact h
  · rename_i room hroom
    have hr : TimerOK room := h c room hroom
    split
    · exact h
    · dsimp only
      split
      · refine TimerStore_stopRoomTimer (TimerStore_save (TimerStore_save h c ?_) c ?_) c
        · exact TimerOK_of_eq hr rfl rfl
        · exact TimerOK_of_zero rfl
      · exact TimerStore_save h c (TimerOK_of_eq hr rfl rfl)

theorem TimerStore_next_round {w : World} (h : TimerStore w) (c p : String) :
    TimerStore (next_round w c p).1 := by
  unfold next_round
  split
  · exact h
  · split
    · exact h
    · exact TimerStore_startRoomTimer
        (TimerStore_save h c (TimerOK_of_timed (Or.inl rfl))) c

theorem TimerStore_request_room_data {w : World} (h : TimerStore w) (s c p : String) :
    TimerStore (request_room_data w s c p).1 := by
  unfold request_room_data
  split
  · exact h
  · rename_i room hroom
    split
    · exact TimerStore_save h c (TimerOK_of_eq (h c room hroom) rfl rfl)
    · exact h

theorem TimerStore_leave_room {w : World} (h : TimerStore w) (s c p : String) :
    TimerStore (leave_room w s c p).1 := by
  unfold leave_room
  split
  · exact h
  · split
    · exact h
    · dsimp only
      split
      · exact TimerStore_stopRoomTimer (TimerStore_deleteOne h c) c
      · exact TimerStore_save (TimerStore_stopRoomTimer h c) c (TimerOK_of_zero rfl)

theorem TimerStore_step {w : World} (h : TimerStore w) (a : Action) :
    TimerStore (step w a).1 := by
  cases a with
  | create_room s c n p d => exact TimerStore_create_room h s c n p d
  | join_room s c n p => exact TimerStore_join_room h s c n p
  | start_game s c t p coin => exact TimerStore_start_game h s c t p coin
  | submit_input c t p => exact TimerStore_submit_input h c t p
  | submit_response c t p => exact TimerStore_submit_response h c t p
  | next_round c p => exact TimerStore_next_round h c p
  | request_room_data s c p => exact TimerStore_request_room_data h s c p
  | leave_room s c p => exact TimerStore_leave_room h s c p
  | timerTick c => exact TimerStore_timerTick h c

theorem TimerStore_run {w : World} (h : TimerStore w) (as : List Action) :
    TimerStore (run w as) := by
  induction as generalizing w with
  | nil => exact h
  | cons a as ih => exact ih (TimerStore_step h a)

/-- C17, as stated, fails: the session just produced by `create_room` is
reachable and in phase `lobby` with `timer = 60`, the schema default, and so is
the same session after a second participant has joined. -/
theorem lobby_timer_counterexample :
    Reachable (run World.empty scenarioAlone) ∧
    (run World.empty scenarioAlone).findOne "AB12" = some roomAlone ∧
    roomAlone.phase = Phase.lobby ∧ roomAlone.timer = 60 ∧ roomAlone.timer ≠ 0 ∧
    Reachable (run World.empty scenarioA) ∧
    (run World.empty scenarioA).findOne "AB12" = some lobbyA ∧
    lobbyA.phase = Phase.lobby ∧ lobbyA.timer = 60 ∧ lobbyA.timer ≠ 0 :=
  ⟨⟨scenarioAlone, rfl⟩, by decide, rfl, rfl, by decide,
    ⟨scenarioA, rfl⟩, by decide, rfl, rfl, by decide⟩

/-- C17, amended. In every reachable server state, a stored session in phase
`reveal` has `timer = 0`, and a stored session in phase `lobby` has `timer = 0`
or `timer = 60` (the schema default, which `create_room` leaves in place). -/
theorem idle_timer_of_reachable (w : World) (code : String) (room : Room)
    (hw : Reachable w) (hroom : w.findOne code = some room) :
    (room.phase = Phase.reveal → room.timer = 0) ∧
    (room.phase = Phase.lobby → room.timer = 0 ∨ room.timer = 60) := by
  obtain ⟨as, rfl⟩ := hw
  have h := TimerStore_run TimerStore_empty as code room hroom
  exact ⟨h.reveal, h.lobby⟩

theorem idle_timer_of_reachable_witness :
    (roomD.phase = Phase.reveal → roomD.timer = 0) ∧
    (roomD.phase = Phase.lobby → roomD.timer = 0 ∨ roomD.timer = 60) :=
  idle_timer_of_reachable (run World.empty scenarioD) "AB12" roomD ⟨scenarioD, rfl⟩
    (by decide)

end TruthDare
